import Mathlib

/-!
# Verification of outline-ss-server core components

A shallow embedding, in Lean 4, of the core of the `outline-ss-server`
repository: the duplex relay engine and connection wrapper (`net/net.go`),
the IP-derived socket marker (`net/net.go`), the metrics boundary helper
`addIfNonZero` (`service/metrics/metrics.go`), and the port-lifecycle
orchestrator (`startPort` / `removePort` / `loadConfig` of the main
server file).

Go maps are modelled as association lists with distinct keys (insertion
ordered, one fixed linearization of Go's unspecified map iteration order);
external collaborators (the `shadowsocks` cipher factory and the TCP/UDP
service loops from the `service` package, which are outside the sources
under verification) are modelled as oracle functions supplied in an
environment record.  Effects on sockets are recorded as explicit event
traces so that statements such as "the listener is untouched" are about
the trace, not about hidden state.
-/

set_option autoImplicit false

namespace OutlineSS

universe u v

/-! ## Association lists with Go-map semantics -/

/-- Lookup in an association list (Go: `v, ok := m[k]`). -/
def alookup {κ : Type u} {α : Type v} [DecidableEq κ] : List (κ × α) → κ → Option α
  | [], _ => none
  | (k, v) :: rest, key => if k = key then some v else alookup rest key

/-- Set a key (Go: `m[k] = v`): replace in place, or append a fresh binding. -/
def aset {κ : Type u} {α : Type v} [DecidableEq κ] : List (κ × α) → κ → α → List (κ × α)
  | [], key, v => [(key, v)]
  | (k, w) :: rest, key, v =>
    if k = key then (k, v) :: rest else (k, w) :: aset rest key v

/-- Delete a key (Go: `delete(m, k)`). -/
def aerase {κ : Type u} {α : Type v} [DecidableEq κ] : List (κ × α) → κ → List (κ × α)
  | [], _ => []
  | (k, v) :: rest, key => if k = key then rest else (k, v) :: aerase rest key

/-- The keys of an association list. -/
def akeys {κ : Type u} {α : Type v} (l : List (κ × α)) : List κ := l.map Prod.fst

/-- The map invariant: every key occurs at most once. -/
def keysNodup {κ : Type u} {α : Type v} (l : List (κ × α)) : Prop := (akeys l).Nodup

instance {κ : Type u} {α : Type v} [DecidableEq κ] (l : List (κ × α)) :
    Decidable (keysNodup l) := by
  unfold keysNodup; infer_instance

/-! ## Errors

Go errors built by `fmt.Errorf` are modelled structurally: each
constructor records the format's fixed text (as a constructor name) and
the interpolated values, with the wrapped cause kept as a subterm. -/

/-- Structural model of the `error` values produced in the verified code. -/
inductive GoErr : Type where
  /-- an error produced by an external collaborator (service loops, cipher factory) -/
  | external (msg : String)
  /-- "Port %v doesn't exist" -/
  | portMissing (port : Nat)
  /-- "Failed to close listener on %v: %v" -/
  | closeListener (port : Nat) (cause : GoErr)
  /-- "Failed to close packetConn on %v: %v" -/
  | closePacketConn (port : Nat) (cause : GoErr)
  /-- "Failed to start TCP on port %v: %v" -/
  | startTCPErr (port : Nat) (cause : GoErr)
  /-- "Failed to start UDP on port %v: %v" -/
  | startUDPErr (port : Nat) (cause : GoErr)
  /-- "Failed to create cipher for key %v: %v" -/
  | cipherCreate (keyID : String) (cause : GoErr)
  /-- "Failed to remove port %v: %v" -/
  | removeFailed (port : Nat) (cause : GoErr)
  /-- "Failed to start port %v: %v" -/
  | startFailed (port : Nat) (cause : GoErr)
  deriving DecidableEq, Repr

/-- Does an error contain another error, as itself or as a wrapped cause?
Used to state which underlying failures a returned error reflects. -/
def errContains : GoErr → GoErr → Bool
  | e, target =>
    if e = target then true
    else
      match e with
      | .closeListener _ c => errContains c target
      | .closePacketConn _ c => errContains c target
      | .startTCPErr _ c => errContains c target
      | .startUDPErr _ c => errContains c target
      | .cipherCreate _ c => errContains c target
      | .removeFailed _ c => errContains c target
      | .startFailed _ c => errContains c target
      | _ => false

/-- Which port a per-port reconcile failure names (`Failed to remove port
%v` / `Failed to start port %v`). -/
def failurePort : GoErr → Option Nat
  | .removeFailed p _ => some p
  | .startFailed p _ => some p
  | _ => none

/-- Is this the error of a failed `ss.NewCipher` call (`Failed to create
cipher for key %v`)? -/
def isCipherCreateErr : GoErr → Bool
  | .cipherCreate _ _ => true
  | _ => false

/-! ## net/net.go — duplex connections and the wrapper

A `Conn` is either a base duplex connection (identified by a numeric id)
or the concrete `duplexConnAdaptor` struct, which embeds the wrapped
`DuplexConn` together with substitute reader and writer (identified by
numeric ids, since `io.Reader`/`io.Writer` are external).  The methods of
`duplexConnAdaptor` are pure delegation, so each is modelled by the
object it delegates to. -/

/-- The object a read/write style method delegates to: the connection
itself, or an external substitute stream. -/
inductive RW : Type where
  | connSelf (id : Nat)
  | ext (id : Nat)
  deriving DecidableEq, Repr

/-- `DuplexConn` values: a base connection or a `duplexConnAdaptor`. -/
inductive Conn : Type where
  | base (id : Nat)
  | adaptor (inner : Conn) (r : Nat) (w : Nat)
  deriving DecidableEq, Repr

/-- Where `Read` gets its bytes: `dc.r.Read(b)` for the adaptor. -/
def Conn.readDelegate : Conn → RW
  | .base i => .connSelf i
  | .adaptor _ r _ => .ext r

/-- Where `Write` sends its bytes: `dc.w.Write(b)` for the adaptor. -/
def Conn.writeDelegate : Conn → RW
  | .base i => .connSelf i
  | .adaptor _ _ w => .ext w

/-- The source `WriteTo` bulk-copies from: `io.Copy(w, dc.r)` reads `dc.r`. -/
def Conn.writeToSource : Conn → RW
  | .base i => .connSelf i
  | .adaptor _ r _ => .ext r

/-- The sink `ReadFrom` bulk-copies into: `io.Copy(dc.w, r)` writes `dc.w`. -/
def Conn.readFromSink : Conn → RW
  | .base i => .connSelf i
  | .adaptor _ _ w => .ext w

/-- The connection whose `CloseRead` runs: `dc.DuplexConn.CloseRead()`. -/
def Conn.closeReadDelegate : Conn → Conn
  | .base i => .base i
  | .adaptor inner _ _ => inner

/-- The connection whose `CloseWrite` runs: `dc.DuplexConn.CloseWrite()`. -/
def Conn.closeWriteDelegate : Conn → Conn
  | .base i => .base i
  | .adaptor inner _ _ => inner

/-- The connection an adaptor delegates to (itself for a non-adaptor). -/
def Conn.underlying : Conn → Conn
  | .adaptor inner _ _ => inner
  | .base i => .base i

/-- Nesting depth of adaptors. -/
def Conn.depth : Conn → Nat
  | .base _ => 0
  | .adaptor inner _ _ => inner.depth + 1

/-- `WrapConn`: wrap with new reader and writer, special-casing an
already-wrapped `duplexConnAdaptor` to avoid nesting. -/
def WrapConn (c : Conn) (r w : Nat) : Conn :=
  match c with
  | .adaptor inner _ _ => .adaptor inner r w
  | .base i => .adaptor (.base i) r w

/-! ## net/net.go — the relay engine

A connection end is modelled by the data its reads deliver: a list of
byte chunks (one per successful `Read`) followed by a terminal condition
(`none` = EOF, `some e` = read error).  `io.Copy(dst, src)` then returns
the total byte count and the terminal error (EOF mapped to a nil error),
writes always succeeding as the claims assume. -/

/-- One relay endpoint: its identity and what reading it yields. -/
structure ConnData : Type where
  id : Nat
  chunks : List (List Nat)
  rerr : Option GoErr
  deriving DecidableEq, Repr

/-- The accumulation loop of `io.Copy`: each successful read of `nr`
bytes adds `nw = nr` to the running count. -/
def copyLoop : List (List Nat) → Int → Int
  | [], written => written
  | c :: cs, written => copyLoop cs (written + c.length)

/-- `io.Copy(dst, src)`: total bytes copied and the error (`nil` on EOF). -/
def ioCopy (src : ConnData) : Int × Option GoErr :=
  (copyLoop src.chunks 0, src.rerr)

/-- A half-close action performed on a connection. -/
inductive CloseEv : Type where
  | closeWrite (id : Nat)
  | closeRead (id : Nat)
  deriving DecidableEq, Repr

/-- `copyOneWay(leftConn, rightConn)`: `io.Copy(leftConn, rightConn)`
(reads `rightConn`, writes `leftConn`), then `leftConn.CloseWrite()` and
`rightConn.CloseRead()`.  Returns the copy result and the trace of
half-close actions, in order. -/
def copyOneWay (leftConn rightConn : ConnData) : (Int × Option GoErr) × List CloseEv :=
  (ioCopy rightConn, [.closeWrite leftConn.id, .closeRead rightConn.id])

/-- `Relay(leftConn, rightConn)`: the goroutine runs
`copyOneWay(rightConn, leftConn)` (copying left→right) and the calling
thread runs `copyOneWay(leftConn, rightConn)` (copying right→left); the
calling thread's error takes precedence when non-nil. -/
def Relay (leftConn rightConn : ConnData) : Int × Int × Option GoErr :=
  let grs := copyOneWay rightConn leftConn
  let mrs := copyOneWay leftConn rightConn
  (mrs.1.1, grs.1.1,
    match mrs.1.2 with
    | none => grs.1.2
    | some e => some e)

/-- Total number of bytes a connection end yields before its terminal
condition (the sum of its read chunk sizes). -/
def bytesOf (c : ConnData) : Int := copyLoop c.chunks 0

/-! ## net/net.go — the connection marker -/

/-- `net.IP.isZeros` on a byte-slice prefix. -/
def isZeros (l : List Nat) : Bool := l.all (fun b => b = 0)

/-- Go's `net.IP.To4`: a 4-byte slice is returned as is; a 16-byte slice
with the IPv4-in-IPv6 prefix (ten zero bytes then `0xff 0xff`) yields its
last four bytes; anything else yields nil. -/
def to4 (ip : List Nat) : Option (List Nat) :=
  if ip.length = 4 then some ip
  else if ip.length = 16 ∧ isZeros (ip.take 10) = true ∧
      ip.getD 10 0 = 255 ∧ ip.getD 11 0 = 255 then
    some ((ip.drop 12).take 4)
  else none

/-- `binary.BigEndian.Uint32`: the first four bytes interpreted
big-endian.  (For byte values below 256 this base-256 sum equals the
bit-or of the shifted bytes that the Go implementation computes.) -/
def beUint32 : List Nat → Nat
  | b0 :: b1 :: b2 :: b3 :: _ => ((b0 * 256 + b1) * 256 + b2) * 256 + b3
  | _ => 0

/-- 32-bit FNV-1a (`hash/fnv`, `New32a` then `Write` then `Sum32`):
offset basis 2166136261, per byte XOR then multiply by 16777619 mod 2³². -/
def fnv32a (data : List Nat) : Nat :=
  data.foldl (fun h b => ((h ^^^ b) * 16777619) % 4294967296) 2166136261

/-- `NewMarker(clientIP)`: for an IP with a non-nil `To4` the mark is the
big-endian 32-bit read of the slice; otherwise the FNV-1a hash of the top
48 bits (the first six bytes). -/
def NewMarker (clientIP : List Nat) : Nat :=
  match to4 clientIP with
  | some _ => beUint32 clientIP
  | none => fnv32a (clientIP.take 6)

/-! ## service/metrics/metrics.go — addIfNonZero

A Prometheus `CounterVec` is modelled as a map from label vectors to the
list of recorded observations; a series exists exactly when its key is in
the map, and `WithLabelValues` instantiates an absent series (at zero,
with no observations) before `Add` records one. -/

/-- A counter vector: label values ↦ recorded observations. -/
abbrev CounterVec : Type := List (List String × List Int)

/-- `CounterVec.WithLabelValues`: creates the series if absent. -/
def withLabelValues (vec : CounterVec) (lvs : List String) : CounterVec :=
  match alookup vec lvs with
  | some _ => vec
  | none => vec ++ [(lvs, [])]

/-- `Counter.Add(v)` on the series for `lvs`. -/
def counterAdd (vec : CounterVec) (lvs : List String) (v : Int) : CounterVec :=
  aset vec lvs (((alookup vec lvs).getD []) ++ [v])

/-- `addIfNonZero`: record the delta only when strictly positive. -/
def addIfNonZero (value : Int) (vec : CounterVec) (lvs : List String) : CounterVec :=
  if value > 0 then counterAdd (withLabelValues vec lvs) lvs value else vec

/-- The current value of a series: the sum of its recorded observations
(zero when the series does not exist). -/
def seriesValue (vec : CounterVec) (lvs : List String) : Int :=
  ((alookup vec lvs).getD []).sum

/-- A sequence of `addIfNonZero` calls with the given deltas against one
series. -/
def applyDeltas (deltas : List Int) (vec : CounterVec) (lvs : List String) : CounterVec :=
  deltas.foldl (fun acc d => addIfNonZero d acc lvs) vec

/-! ## The port orchestrator (`SSServer` of the main server file)

The cipher type and every external effect (`ss.NewCipher`,
`net.ListenTCP` / `net.ListenUDP`, `TCPService.Stop` / `UDPService.Stop`)
are parameters gathered in `Env`; listen results carry a numeric identity
for the created service so that "the listener is untouched" is
expressible.  Each operation returns the new server state, the trace of
socket-affecting actions it performed, and its error result. -/

/-- One record of `Config.Keys`: `{ID, Port, Cipher, Secret}`. -/
structure KeyConfig : Type where
  id : String
  port : Nat
  cipher : String
  secret : String
  deriving DecidableEq, Repr

/-- The configuration: an ordered list of access keys. -/
structure Config : Type where
  keys : List KeyConfig
  deriving DecidableEq, Repr

/-- `service.MakeCipherEntry(ID, cipher, secret)`. -/
structure CipherEntry (C : Type) : Type where
  id : String
  cipher : C
  secret : String
  deriving DecidableEq, Repr

/-- An `ssPort`: the two running services (by identity) and the current
cipher list contents. -/
structure SSPort (C : Type) : Type where
  tcpID : Nat
  udpID : Nat
  ciphers : List (CipherEntry C)
  deriving DecidableEq, Repr

/-- `SSServer.ports`: the map from port number to its binding. -/
abbrev ServerState (C : Type) : Type := List (Nat × SSPort C)

/-- The external collaborators of the orchestrator. -/
structure Env (C : Type) : Type where
  newCipher : String → String → Except GoErr C
  tcpListen : Nat → Except GoErr Nat
  udpListen : Nat → Except GoErr Nat
  tcpStop : Nat → Option GoErr
  udpStop : Nat → Option GoErr

/-- Socket-affecting actions of one reconcile pass. -/
inductive Ev (C : Type) : Type where
  | stopTCP (port : Nat)
  | stopUDP (port : Nat)
  | startTCP (port : Nat)
  | startUDP (port : Nat)
  | updateCiphers (port : Nat) (entries : List (CipherEntry C))
  deriving DecidableEq, Repr

/-- Is the event a start or stop of a listening socket? -/
def isStartStop {C : Type} : Ev C → Bool
  | .stopTCP _ => true
  | .stopUDP _ => true
  | .startTCP _ => true
  | .startUDP _ => true
  | .updateCiphers _ _ => false

/-- Is the event a start or stop touching port `p`? -/
def isStartStopAt {C : Type} (p : Nat) : Ev C → Bool
  | .stopTCP q => q = p
  | .stopUDP q => q = p
  | .startTCP q => q = p
  | .startUDP q => q = p
  | .updateCiphers _ _ => false

/-- Result of one orchestrator operation. -/
structure StepResult (C : Type) : Type where
  state : ServerState C
  trace : List (Ev C)
  err : Option GoErr
  deriving DecidableEq, Repr

/-- `SSServer.removePort`: look the port up (error when absent), stop
both services, delete the binding, then report the TCP stop error first,
else the UDP stop error. -/
def removePort {C : Type} (env : Env C) (portNum : Nat) (s : ServerState C) :
    StepResult C :=
  match alookup s portNum with
  | none => ⟨s, [], some (.portMissing portNum)⟩
  | some port =>
    let tcpErr := env.tcpStop port.tcpID
    let udpErr := env.udpStop port.udpID
    let s' := aerase s portNum
    let err :=
      match tcpErr with
      | some e => some (GoErr.closeListener portNum e)
      | none =>
        match udpErr with
        | some e => some (GoErr.closePacketConn portNum e)
        | none => none
    ⟨s', [.stopTCP portNum, .stopUDP portNum], err⟩

/-- `SSServer.startPort`: bind TCP then UDP, create an empty cipher list,
register the binding, launch the serve loops.  A UDP bind failure leaves
the already-bound TCP listener in place (visible in the trace) without
registering the port. -/
def startPort {C : Type} (env : Env C) (portNum : Nat) (s : ServerState C) :
    StepResult C :=
  match env.tcpListen portNum with
  | .error e => ⟨s, [], some (.startTCPErr portNum e)⟩
  | .ok tid =>
    match env.udpListen portNum with
    | .error e => ⟨s, [.startTCP portNum], some (.startUDPErr portNum e)⟩
    | .ok uid =>
      ⟨aset s portNum ⟨tid, uid, []⟩, [.startTCP portNum, .startUDP portNum], none⟩

/-- The first loop of `loadConfig`: set `portChanges[k.Port] = 1` and
append the key's cipher entry to `portCiphers[k.Port]`, failing on the
first cipher-creation error. -/
def buildCfg {C : Type} (env : Env C) :
    List KeyConfig → List (Nat × Int) → List (Nat × List (CipherEntry C)) →
    Except GoErr (List (Nat × Int) × List (Nat × List (CipherEntry C)))
  | [], portChanges, portCiphers => .ok (portChanges, portCiphers)
  | k :: ks, portChanges, portCiphers =>
    let portChanges := aset portChanges k.port 1
    match env.newCipher k.cipher k.secret with
    | .error e => .error (.cipherCreate k.id e)
    | .ok c =>
      buildCfg env ks portChanges
        (aset portCiphers k.port
          (((alookup portCiphers k.port).getD []) ++ [⟨k.id, c, k.secret⟩]))

/-- The second loop of `loadConfig`:
`portChanges[port] = portChanges[port] - 1` for every bound port. -/
def decrChanges {C : Type} (s : ServerState C) (portChanges : List (Nat × Int)) :
    List (Nat × Int) :=
  s.foldl (fun acc pb => aset acc pb.1 (((alookup acc pb.1).getD 0) - 1)) portChanges

/-- The third loop of `loadConfig`: stop every port with net count −1 and
start every port with net count +1, aborting on the first failure. -/
def applyChanges {C : Type} (env : Env C) :
    List (Nat × Int) → ServerState C → StepResult C
  | [], s => ⟨s, [], none⟩
  | (portNum, count) :: rest, s =>
    if count = -1 then
      let r := removePort env portNum s
      match r.err with
      | some e => ⟨r.state, r.trace, some (.removeFailed portNum e)⟩
      | none =>
        let r2 := applyChanges env rest r.state
        ⟨r2.state, r.trace ++ r2.trace, r2.err⟩
    else if count = 1 then
      let r := startPort env portNum s
      match r.err with
      | some e => ⟨r.state, r.trace, some (.startFailed portNum e)⟩
      | none =>
        let r2 := applyChanges env rest r.state
        ⟨r2.state, r.trace ++ r2.trace, r2.err⟩
    else applyChanges env rest s

/-- `CipherList.Update` on one port's binding: swap the cipher list
contents in place, leaving the binding's services untouched. -/
def amodifyCiphers {C : Type} : ServerState C → Nat → List (CipherEntry C) → ServerState C
  | [], _, _ => []
  | (k, b) :: rest, p, entries =>
    if k = p then (k, { b with ciphers := entries }) :: rest
    else (k, b) :: amodifyCiphers rest p entries

/-- The fourth loop of `loadConfig`: replace every configured port's
cipher list with the freshly built entries. -/
def updateAllCiphers {C : Type} :
    List (Nat × List (CipherEntry C)) → ServerState C → ServerState C × List (Ev C)
  | [], s => (s, [])
  | (p, entries) :: rest, s =>
    let s' := amodifyCiphers s p entries
    let r := updateAllCiphers rest s'
    (r.1, Ev.updateCiphers p entries :: r.2)

/-- The remainder of `loadConfig` once the first loop has produced its
result: on a cipher-creation error return it with the state untouched;
otherwise run the delta loop and, if it succeeds, the cipher-swap loop. -/
def loadConfigGo {C : Type} (env : Env C) (s : ServerState C) :
    Except GoErr (List (Nat × Int) × List (Nat × List (CipherEntry C))) → StepResult C
  | .error e => ⟨s, [], some e⟩
  | .ok (portChanges, portCiphers) =>
    let pc2 := decrChanges s portChanges
    let r := applyChanges env pc2 s
    match r.err with
    | some e => ⟨r.state, r.trace, some e⟩
    | none =>
      let u := updateAllCiphers portCiphers r.state
      ⟨u.1, r.trace ++ u.2, none⟩

/-- `SSServer.loadConfig`: build the cipher entries and the signed delta
count per port, stop/start ports with net −1/+1, then swap the cipher
sets of all configured ports.  (The final `SetNumAccessKeys` call goes to
the external metrics sink and has no effect on the port state.) -/
def loadConfig {C : Type} (env : Env C) (config : Config) (s : ServerState C) :
    StepResult C :=
  loadConfigGo env s (buildCfg env config.keys [] [])

/-- Modelled from the spec: "a cipher-set replacement using only the
entries for that port" — the entries the configuration's key list
contributes for port `p`, in configuration order.  Compared against the
cipher set the code installs. -/
def specEntriesFor {C : Type} (env : Env C) : List KeyConfig → Nat → List (CipherEntry C)
  | [], _ => []
  | k :: ks, p =>
    if k.port = p then
      match env.newCipher k.cipher k.secret with
      | .ok c => ⟨k.id, c, k.secret⟩ :: specEntriesFor env ks p
      | .error _ => specEntriesFor env ks p
    else specEntriesFor env ks p

/-- The set of ports a configuration names. -/
def cfgPorts (config : Config) : List Nat := config.keys.map KeyConfig.port

/-! ### Concrete fixtures for closed evaluations -/

/-- An environment in which every external operation succeeds. -/
def envOK : Env Unit where
  newCipher := fun _ _ => .ok ()
  tcpListen := fun p => .ok (2 * p)
  udpListen := fun p => .ok (2 * p + 1)
  tcpStop := fun _ => none
  udpStop := fun _ => none

/-- An environment in which both service shutdowns fail. -/
def envStopsFail : Env Unit where
  newCipher := fun _ _ => .ok ()
  tcpListen := fun p => .ok (2 * p)
  udpListen := fun p => .ok (2 * p + 1)
  tcpStop := fun _ => some (.external "T")
  udpStop := fun _ => some (.external "U")

/-- An environment in which cipher creation fails. -/
def envBadCipher : Env Unit where
  newCipher := fun _ _ => .error (.external "bad key")
  tcpListen := fun p => .ok (2 * p)
  udpListen := fun p => .ok (2 * p + 1)
  tcpStop := fun _ => none
  udpStop := fun _ => none

/-- An environment in which binding TCP listeners fails. -/
def envListenFail : Env Unit where
  newCipher := fun _ _ => .ok ()
  tcpListen := fun _ => .error (.external "address in use")
  udpListen := fun p => .ok (2 * p + 1)
  tcpStop := fun _ => none
  udpStop := fun _ => none

/-- A concrete one-port server state. -/
def statePort1 : ServerState Unit := [(1, ⟨10, 11, [⟨"A", (), "s1"⟩]⟩)]

/-- A concrete two-key, one-new-port configuration naming ports 1 and 2. -/
def cfg12 : Config :=
  ⟨[⟨"A", 1, "chacha", "s1n"⟩, ⟨"B", 2, "chacha", "s2"⟩]⟩

/-! ## Association-list lemmas -/

theorem akeys_cons {κ : Type u} {α : Type v} (k : κ) (v : α) (l : List (κ × α)) :
    akeys ((k, v) :: l) = k :: akeys l := rfl

theorem alookup_aset_self {κ : Type u} {α : Type v} [DecidableEq κ]
    (l : List (κ × α)) (k : κ) (v : α) : alookup (aset l k v) k = some v := by
  induction l with
  | nil => simp [aset, alookup]
  | cons hd tl ih =>
    obtain ⟨k', v'⟩ := hd
    by_cases h : k' = k
    · simp [aset, alookup, h]
    · simp [aset, alookup, h, ih]

theorem alookup_aset_ne {κ : Type u} {α : Type v} [DecidableEq κ]
    (l : List (κ × α)) (k q : κ) (v : α) (h : k ≠ q) :
    alookup (aset l k v) q = alookup l q := by
  induction l with
  | nil => simp [aset, alookup, fun hc => h hc]
  | cons hd tl ih =>
    obtain ⟨k', v'⟩ := hd
    by_cases hk : k' = k
    · subst hk
      simp [aset, alookup, fun hc => h hc]
    · simp [aset, alookup, hk, ih]

theorem alookup_aerase_ne {κ : Type u} {α : Type v} [DecidableEq κ]
    (l : List (κ × α)) (k q : κ) (h : k ≠ q) :
    alookup (aerase l k) q = alookup l q := by
  induction l with
  | nil => simp [aerase]
  | cons hd tl ih =>
    obtain ⟨k', v'⟩ := hd
    by_cases hk : k' = k
    · subst hk
      simp [aerase, alookup, h]
    · simp [aerase, alookup, hk, ih]

theorem mem_akeys_iff_isSome {κ : Type u} {α : Type v} [DecidableEq κ]
    (l : List (κ × α)) (k : κ) : k ∈ akeys l ↔ (alookup l k).isSome := by
  induction l with
  | nil => simp [akeys, alookup]
  | cons hd tl ih =>
    obtain ⟨k', v'⟩ := hd
    rw [akeys_cons]
    by_cases h : k' = k
    · simp [alookup, h]
    · simp [alookup, h, ih, Ne.symm h]

theorem alookup_eq_none_of_not_mem {κ : Type u} {α : Type v} [DecidableEq κ]
    (l : List (κ × α)) (k : κ) (h : k ∉ akeys l) : alookup l k = none := by
  have := (mem_akeys_iff_isSome l k).not.mp h
  cases hl : alookup l k with
  | none => rfl
  | some v => rw [hl] at this; simp at this

theorem alookup_aerase_self {κ : Type u} {α : Type v} [DecidableEq κ]
    (l : List (κ × α)) (k : κ) (h : keysNodup l) :
    alookup (aerase l k) k = none := by
  induction l with
  | nil => simp [aerase, alookup]
  | cons hd tl ih =>
    obtain ⟨k', v'⟩ := hd
    have hn : keysNodup tl := (List.nodup_cons.mp h).2
    by_cases hk : k' = k
    · subst hk
      have hnm : k' ∉ akeys tl := (List.nodup_cons.mp h).1
      simp [aerase, alookup_eq_none_of_not_mem tl k' hnm]
    · simp [aerase, alookup, hk, ih hn]

theorem akeys_aset_subset {κ : Type u} {α : Type v} [DecidableEq κ]
    (l : List (κ × α)) (k : κ) (v : α) (q : κ) :
    q ∈ akeys (aset l k v) ↔ (q ∈ akeys l ∨ q = k) := by
  induction l with
  | nil => simp [aset, akeys, eq_comm]
  | cons hd tl ih =>
    obtain ⟨k', v'⟩ := hd
    by_cases h : k' = k
    · subst h
      simp [aset, akeys, eq_comm]
      tauto
    · simp [aset, akeys, h] at ih ⊢
      tauto

theorem keysNodup_aset {κ : Type u} {α : Type v} [DecidableEq κ]
    (l : List (κ × α)) (k : κ) (v : α) (h : keysNodup l) :
    keysNodup (aset l k v) := by
  induction l with
  | nil => simp [aset, keysNodup, akeys]
  | cons hd tl ih =>
    obtain ⟨k', v'⟩ := hd
    have h1 : k' ∉ akeys tl := (List.nodup_cons.mp h).1
    have h2 : keysNodup tl := (List.nodup_cons.mp h).2
    by_cases hk : k' = k
    · subst hk
      simpa [aset, keysNodup, akeys] using h
    · have hrec : keysNodup (aset tl k v) := ih h2
      show keysNodup (if k' = k then (k', v) :: tl else (k', v') :: aset tl k v)
      rw [if_neg hk]
      show (k' :: akeys (aset tl k v)).Nodup
      refine List.nodup_cons.mpr ⟨?_, hrec⟩
      intro hmem
      rcases (akeys_aset_subset tl k v k').mp hmem with hm | he
      · exact h1 hm
      · exact hk he

theorem akeys_aerase_sublist {κ : Type u} {α : Type v} [DecidableEq κ]
    (l : List (κ × α)) (k : κ) : (akeys (aerase l k)).Sublist (akeys l) := by
  induction l with
  | nil => simp [aerase]
  | cons hd tl ih =>
    obtain ⟨k', v'⟩ := hd
    show (akeys (if k' = k then tl else (k', v') :: aerase tl k)).Sublist (akeys ((k', v') :: tl))
    by_cases h : k' = k
    · rw [if_pos h, akeys_cons]
      exact List.sublist_cons_self _ _
    · rw [if_neg h, akeys_cons, akeys_cons]
      exact List.Sublist.cons₂ _ ih

theorem keysNodup_aerase {κ : Type u} {α : Type v} [DecidableEq κ]
    (l : List (κ × α)) (k : κ) (h : keysNodup l) :
    keysNodup (aerase l k) := (akeys_aerase_sublist l k).nodup h

theorem alookup_append {κ : Type u} {α : Type v} [DecidableEq κ]
    (l1 l2 : List (κ × α)) (k : κ) :
    alookup (l1 ++ l2) k =
      match alookup l1 k with
      | some v => some v
      | none => alookup l2 k := by
  induction l1 with
  | nil => simp [alookup]
  | cons hd tl ih =>
    obtain ⟨k', v'⟩ := hd
    by_cases h : k' = k
    · simp [alookup, h]
    · simp [alookup, h, ih]

/-! ## Relay engine claims -/

/-- C5: when a directional copy finishes, exactly two half-close actions
are performed — `CloseWrite` on the destination and `CloseRead` on the
source — and the source's write half and the destination's read half are
never closed by that direction. -/
theorem copyOneWay_halfClose (l r : ConnData) (h : l.id ≠ r.id) :
    (copyOneWay l r).2 = [CloseEv.closeWrite l.id, CloseEv.closeRead r.id] ∧
    (copyOneWay l r).2.length = 2 ∧
    (copyOneWay l r).2.count (CloseEv.closeWrite r.id) = 0 ∧
    (copyOneWay l r).2.count (CloseEv.closeRead l.id) = 0 := by
  refine ⟨rfl, rfl, ?_, ?_⟩ <;>
    simp [copyOneWay, List.count_cons, h, Ne.symm h]

theorem copyOneWay_halfClose_witness :
    (copyOneWay ⟨0, [[1, 2]], none⟩ ⟨1, [], none⟩).2 =
      [CloseEv.closeWrite 0, CloseEv.closeRead 1] ∧
    (copyOneWay ⟨0, [[1, 2]], none⟩ ⟨1, [], none⟩).2.length = 2 ∧
    (copyOneWay ⟨0, [[1, 2]], none⟩ ⟨1, [], none⟩).2.count (CloseEv.closeWrite 1) = 0 ∧
    (copyOneWay ⟨0, [[1, 2]], none⟩ ⟨1, [], none⟩).2.count (CloseEv.closeRead 0) = 0 :=
  copyOneWay_halfClose ⟨0, [[1, 2]], none⟩ ⟨1, [], none⟩ (by decide)

/-- C3 (counterexample): with `a` yielding exactly 1 byte then EOF and
`b` yielding exactly 2 bytes then EOF, `Relay(a, b)` returns `(2, 1, nil)`
— bytes b→a first — not `(bytesAtoB, bytesBtoA) = (1, 2, nil)` as
claimed. -/
theorem relay_order_counterexample :
    Relay ⟨0, [[7]], none⟩ ⟨1, [[8], [9]], none⟩ = (2, 1, none) ∧
    ((2 : Int), (1 : Int), (none : Option GoErr)) ≠
      ((1 : Int), (2 : Int), (none : Option GoErr)) := by
  decide

/-- C3 (amended): with `a` yielding exactly N bytes then end-of-stream
and `b` yielding exactly M bytes then end-of-stream and no errors,
`Relay(a, b)` returns `(M, N, nil)` — bytes copied b→a first, then bytes
copied a→b, matching the code's doc comment "right to left, left to
right"; each count is the exact sum of that source's read chunk sizes,
however the bytes are split. -/
theorem relay_counts (a b : ConnData) (ha : a.rerr = none) (hb : b.rerr = none) :
    Relay a b = (bytesOf b, bytesOf a, none) := by
  simp [Relay, copyOneWay, ioCopy, bytesOf, ha, hb]

theorem relay_counts_witness :
    Relay ⟨0, [[7]], none⟩ ⟨1, [[8], [9]], none⟩ =
      (bytesOf ⟨1, [[8], [9]], none⟩, bytesOf ⟨0, [[7]], none⟩, none) :=
  relay_counts ⟨0, [[7]], none⟩ ⟨1, [[8], [9]], none⟩ rfl rfl

/-- C4 (counterexample): when both directions fail, `Relay(a, b)` returns
the b→a direction's error (the calling thread's copy, which reads `b`),
not the forward a→b error as claimed: here a's read error is "EA" and b's
is "EB", and the result carries "EB". -/
theorem relay_err_counterexample :
    Relay ⟨0, [], some (.external "EA")⟩ ⟨1, [], some (.external "EB")⟩ =
      (0, 0, some (.external "EB")) ∧
    GoErr.external "EB" ≠ GoErr.external "EA" := by
  decide

/-- C4 (amended): the error returned by `Relay(a, b)` is the b→a
direction's error when that copy fails (discarding the a→b error if both
fail); when only the a→b copy fails, its error is returned; when neither
fails, the result error is nil. -/
theorem relay_err_precedence (a b : ConnData) :
    ((Relay a b).2.2 =
      match b.rerr with
      | some e => some e
      | none => a.rerr) ∧
    (b.rerr = none → a.rerr = none → (Relay a b).2.2 = none) ∧
    (∀ e, b.rerr = some e → (Relay a b).2.2 = some e) ∧
    (∀ e, b.rerr = none → a.rerr = some e → (Relay a b).2.2 = some e) := by
  refine ⟨?_, ?_, ?_, ?_⟩
  · cases hb : b.rerr <;> simp [Relay, copyOneWay, ioCopy, hb]
  · intro hb ha; simp [Relay, copyOneWay, ioCopy, ha, hb]
  · intro e hb; simp [Relay, copyOneWay, ioCopy, hb]
  · intro e hb ha; simp [Relay, copyOneWay, ioCopy, ha, hb]

theorem relay_err_precedence_witness :
    (Relay ⟨0, [], some (.external "EA")⟩ ⟨1, [], none⟩).2.2 =
      some (.external "EA") :=
  (relay_err_precedence ⟨0, [], some (.external "EA")⟩ ⟨1, [], none⟩).2.2.2
    (GoErr.external "EA") rfl rfl

/-! ## Connection wrapper claim -/

/-- C8: a wrapped connection reads and writes (including the bulk-copy
`WriteTo` / `ReadFrom` paths) through the substitute streams, half-closes
delegate to the wrapped connection, and re-wrapping replaces the
substitutes instead of nesting: wrapping a wrapped connection delegates
directly to the original underlying connection, keeping delegation depth
at one level. -/
theorem wrapConn_spec (c : Conn) (r w r2 w2 : Nat) :
    (WrapConn c r w).readDelegate = RW.ext r ∧
    (WrapConn c r w).writeDelegate = RW.ext w ∧
    (WrapConn c r w).writeToSource = RW.ext r ∧
    (WrapConn c r w).readFromSink = RW.ext w ∧
    (WrapConn c r w).closeReadDelegate = c.underlying ∧
    (WrapConn c r w).closeWriteDelegate = c.underlying ∧
    WrapConn (WrapConn c r w) r2 w2 = WrapConn c r2 w2 ∧
    (WrapConn (WrapConn c r w) r2 w2).underlying = (WrapConn c r2 w2).underlying ∧
    (WrapConn c r w).depth = c.underlying.depth + 1 := by
  cases c <;>
    simp [WrapConn, Conn.readDelegate, Conn.writeDelegate, Conn.writeToSource,
      Conn.readFromSink, Conn.closeReadDelegate, Conn.closeWriteDelegate,
      Conn.underlying, Conn.depth]

/-! ## Marker claim -/

theorem length4_explicit (l : List Nat) (h : l.length = 4) :
    ∃ a b c d, l = [a, b, c, d] := by
  rcases l with _ | ⟨a, _ | ⟨b, _ | ⟨c, _ | ⟨d, _ | ⟨e, t⟩⟩⟩⟩⟩
  · simp only [List.length_nil] at h; omega
  · simp only [List.length_cons, List.length_nil] at h; omega
  · simp only [List.length_cons, List.length_nil] at h; omega
  · simp only [List.length_cons, List.length_nil] at h; omega
  · exact ⟨a, b, c, d, rfl⟩
  · simp only [List.length_cons] at h; omega

theorem to4_of_length4 (ip : List Nat) (h : ip.length = 4) : to4 ip = some ip := by
  simp [to4, h]

/-- C6: `NewMarker` is a deterministic function of the client IP; on
4-byte IPv4 addresses it is the big-endian 32-bit read of the address and
is injective (1.2.3.4 and 1.2.3.5 differ); on addresses outside the
`To4` form it is the FNV-1a hash of the first six bytes, so two such
addresses sharing their first six bytes always mark identically. -/
theorem newMarker_spec :
    (∀ ip : List Nat, ip.length = 4 → NewMarker ip = beUint32 ip) ∧
    (∀ ip : List Nat, to4 ip = none → NewMarker ip = fnv32a (ip.take 6)) ∧
    (∀ ip1 ip2 : List Nat, ip1.length = 4 → ip2.length = 4 →
      (∀ b ∈ ip1, b < 256) → (∀ b ∈ ip2, b < 256) → ip1 ≠ ip2 →
      NewMarker ip1 ≠ NewMarker ip2) ∧
    (∀ ip1 ip2 : List Nat, to4 ip1 = none → to4 ip2 = none →
      ip1.take 6 = ip2.take 6 → NewMarker ip1 = NewMarker ip2) := by
  have h4 : ∀ ip : List Nat, ip.length = 4 → NewMarker ip = beUint32 ip := by
    intro ip h
    simp [NewMarker, to4_of_length4 ip h]
  have h6 : ∀ ip : List Nat, to4 ip = none → NewMarker ip = fnv32a (ip.take 6) := by
    intro ip h
    simp [NewMarker, h]
  refine ⟨h4, h6, ?_, ?_⟩
  · intro ip1 ip2 hl1 hl2 hb1 hb2 hne
    obtain ⟨a, b, c, d, rfl⟩ := length4_explicit ip1 hl1
    obtain ⟨a', b', c', d', rfl⟩ := length4_explicit ip2 hl2
    rw [h4 _ hl1, h4 _ hl2]
    intro heq
    simp [beUint32] at heq
    simp only [List.mem_cons, List.not_mem_nil, or_false] at hb1 hb2
    have ha : a < 256 := hb1 a (Or.inl rfl)
    have hbb : b < 256 := hb1 b (Or.inr (Or.inl rfl))
    have hc : c < 256 := hb1 c (Or.inr (Or.inr (Or.inl rfl)))
    have hd : d < 256 := hb1 d (Or.inr (Or.inr (Or.inr rfl)))
    have ha' : a' < 256 := hb2 a' (Or.inl rfl)
    have hbb' : b' < 256 := hb2 b' (Or.inr (Or.inl rfl))
    have hc' : c' < 256 := hb2 c' (Or.inr (Or.inr (Or.inl rfl)))
    have hd' : d' < 256 := hb2 d' (Or.inr (Or.inr (Or.inr rfl)))
    apply hne
    have : a = a' ∧ b = b' ∧ c = c' ∧ d = d' := by omega
    simp [this.1, this.2.1, this.2.2.1, this.2.2.2]
  · intro ip1 ip2 h1 h2 hpre
    rw [h6 _ h1, h6 _ h2, hpre]

theorem newMarker_spec_witness :
    NewMarker [1, 2, 3, 4] ≠ NewMarker [1, 2, 3, 5] ∧
    NewMarker [32, 1, 13, 184, 0, 0, 0, 0, 0, 0, 0, 0, 0, 0, 0, 1] =
      NewMarker [32, 1, 13, 184, 0, 0, 9, 9, 9, 9, 9, 9, 9, 9, 9, 9] :=
  ⟨newMarker_spec.2.2.1 [1, 2, 3, 4] [1, 2, 3, 5] rfl rfl
      (by decide) (by decide) (by decide),
    newMarker_spec.2.2.2 [32, 1, 13, 184, 0, 0, 0, 0, 0, 0, 0, 0, 0, 0, 0, 1]
      [32, 1, 13, 184, 0, 0, 9, 9, 9, 9, 9, 9, 9, 9, 9, 9]
      (by decide) (by decide) rfl⟩

/-! ## addIfNonZero claim -/

/-- C9: a non-positive delta is a true no-op — the counter vector is left
exactly as it was, with no series created or touched; a strictly positive
delta appends one observation of exactly `v` to the series (creating it
on first use) and raises its value by exactly `v`; and the delta sequence
[0, 0, 5, 0, 3] against one initially absent series records exactly the
observations [5, 3], the series not existing before the first nonzero
call. -/
theorem addIfNonZero_spec (v : Int) (vec : CounterVec) (lvs : List String) :
    (v ≤ 0 → addIfNonZero v vec lvs = vec) ∧
    (v > 0 →
      alookup (addIfNonZero v vec lvs) lvs =
        some (((alookup vec lvs).getD []) ++ [v]) ∧
      seriesValue (addIfNonZero v vec lvs) lvs = seriesValue vec lvs + v) ∧
    (alookup vec lvs = none →
      applyDeltas [0, 0] vec lvs = vec ∧
      alookup (applyDeltas [0, 0, 5, 0, 3] vec lvs) lvs = some [5, 3]) := by
  have hz : ∀ vec0 : CounterVec, addIfNonZero 0 vec0 lvs = vec0 := by
    intro vec0
    simp [addIfNonZero]
  have hlook : ∀ (vec0 : CounterVec) (v0 : Int), v0 > 0 →
      alookup (addIfNonZero v0 vec0 lvs) lvs =
        some (((alookup vec0 lvs).getD []) ++ [v0]) := by
    intro vec0 v0 hv
    simp only [addIfNonZero, if_pos hv, counterAdd, withLabelValues]
    cases h0 : alookup vec0 lvs with
    | some obs => simp [h0, alookup_aset_self]
    | none =>
      have happ : alookup (vec0 ++ [(lvs, ([] : List Int))]) lvs = some [] := by
        rw [alookup_append, h0]
        simp [alookup]
      simp [h0, happ, alookup_aset_self]
  refine ⟨?_, ?_, ?_⟩
  · intro hv
    simp [addIfNonZero, not_lt.mpr hv]
  · intro hv
    refine ⟨hlook vec v hv, ?_⟩
    rw [seriesValue, hlook vec v hv]
    simp [seriesValue]
  · intro h0
    refine ⟨?_, ?_⟩
    · simp [applyDeltas, hz]
    · have s1 : applyDeltas [0, 0, 5, 0, 3] vec lvs =
          addIfNonZero 3 (addIfNonZero 5 vec lvs) lvs := by
        simp [applyDeltas, hz]
      rw [s1]
      have l5 : alookup (addIfNonZero 5 vec lvs) lvs = some [5] := by
        rw [hlook vec 5 (by decide), h0]
        rfl
      rw [hlook (addIfNonZero 5 vec lvs) 3 (by decide), l5]
      rfl

theorem addIfNonZero_spec_witness :
    addIfNonZero (-2) [] ["tcp", "key1"] = [] ∧
    alookup (addIfNonZero 4 [] ["tcp", "key1"]) ["tcp", "key1"] =
      some (((alookup ([] : CounterVec) ["tcp", "key1"]).getD []) ++ [4]) ∧
    applyDeltas [0, 0] [] ["tcp", "key1"] = [] ∧
    alookup (applyDeltas [0, 0, 5, 0, 3] [] ["tcp", "key1"]) ["tcp", "key1"] =
      some [5, 3] :=
  ⟨(addIfNonZero_spec (-2) [] ["tcp", "key1"]).1 (by decide),
    ((addIfNonZero_spec 4 [] ["tcp", "key1"]).2.1 (by decide)).1,
    ((addIfNonZero_spec 0 [] ["tcp", "key1"]).2.2 rfl).1,
    ((addIfNonZero_spec 0 [] ["tcp", "key1"]).2.2 rfl).2⟩

/-! ## Orchestrator: removePort claims -/

/-- C7 (counterexample): when both shutdowns fail, the error returned by
`removePort` wraps only the TCP failure; the UDP failure is not reflected
anywhere in it, so it is not a combined error of both failures. -/
theorem removePort_combined_counterexample :
    (removePort envStopsFail 1 statePort1).err =
      some (.closeListener 1 (.external "T")) ∧
    envStopsFail.udpStop 11 = some (.external "U") ∧
    errContains (.closeListener 1 (.external "T")) (.external "U") = false := by
  decide

/-- C7 (amended): for a bound port, `removePort` attempts both shutdowns,
removes the binding, and returns a non-nil error iff at least one
shutdown failed; when both fail, the returned error reflects only the TCP
failure (the UDP error is discarded). -/
theorem removePort_shutdown (CT : Type) (env : Env CT) (p : Nat) (s : ServerState CT)
    (b : SSPort CT) (hb : alookup s p = some b) :
    (removePort env p s).trace = [Ev.stopTCP p, Ev.stopUDP p] ∧
    (removePort env p s).state = aerase s p ∧
    ((removePort env p s).err ≠ none ↔
      (env.tcpStop b.tcpID ≠ none ∨ env.udpStop b.udpID ≠ none)) ∧
    (∀ e1 e2, env.tcpStop b.tcpID = some e1 → env.udpStop b.udpID = some e2 →
      (removePort env p s).err = some (.closeListener p e1)) := by
  unfold removePort
  rw [hb]
  refine ⟨rfl, rfl, ?_, ?_⟩
  · cases ht : env.tcpStop b.tcpID <;> cases hu : env.udpStop b.udpID <;> simp [ht, hu]
  · intro e1 e2 h1 h2
    simp [h1]

theorem removePort_shutdown_witness :
    (removePort envStopsFail 1 statePort1).trace = [Ev.stopTCP 1, Ev.stopUDP 1] ∧
    (removePort envStopsFail 1 statePort1).state = aerase statePort1 1 ∧
    ((removePort envStopsFail 1 statePort1).err ≠ none ↔
      (envStopsFail.tcpStop 10 ≠ none ∨ envStopsFail.udpStop 11 ≠ none)) ∧
    (∀ e1 e2, envStopsFail.tcpStop 10 = some e1 → envStopsFail.udpStop 11 = some e2 →
      (removePort envStopsFail 1 statePort1).err = some (.closeListener 1 e1)) :=
  removePort_shutdown Unit envStopsFail 1 statePort1 ⟨10, 11, [⟨"A", (), "s1"⟩]⟩
    (by decide)

/-- C10: `removePort` on an unbound port returns a non-nil error and
leaves the state exactly unchanged; on a bound port the binding is
deleted unconditionally — before the shutdown errors are inspected — so
it is gone from the map even when an error is returned. -/
theorem removePort_membership (CT : Type) (env : Env CT) (p : Nat) (s : ServerState CT) :
    (alookup s p = none → removePort env p s = ⟨s, [], some (.portMissing p)⟩) ∧
    (∀ b, alookup s p = some b →
      (removePort env p s).state = aerase s p ∧
      (keysNodup s → alookup (removePort env p s).state p = none)) := by
  constructor
  · intro h
    unfold removePort
    rw [h]
  · intro b hb
    unfold removePort
    rw [hb]
    exact ⟨rfl, fun hn => alookup_aerase_self s p hn⟩

theorem removePort_membership_witness :
    removePort envStopsFail 2 statePort1 = ⟨statePort1, [], some (.portMissing 2)⟩ ∧
    (removePort envStopsFail 1 statePort1).state = aerase statePort1 1 ∧
    alookup (removePort envStopsFail 1 statePort1).state 1 = none ∧
    (removePort envStopsFail 1 statePort1).err ≠ none :=
  ⟨(removePort_membership Unit envStopsFail 2 statePort1).1 (by decide),
    ((removePort_membership Unit envStopsFail 1 statePort1).2
      ⟨10, 11, [⟨"A", (), "s1"⟩]⟩ (by decide)).1,
    ((removePort_membership Unit envStopsFail 1 statePort1).2
      ⟨10, 11, [⟨"A", (), "s1"⟩]⟩ (by decide)).2 (by decide),
    by decide⟩

/-! ## Orchestrator: loadConfig lemmas -/

theorem alookup_of_mem_nodup {κ : Type u} {α : Type v} [DecidableEq κ]
    (l : List (κ × α)) (k : κ) (v : α) (h : (k, v) ∈ l) (hn : keysNodup l) :
    alookup l k = some v := by
  induction l with
  | nil => simp at h
  | cons hd tl ih =>
    obtain ⟨k', v'⟩ := hd
    rcases List.mem_cons.mp h with he | hm
    · have h1 : k = k' := congrArg Prod.fst he
      have h2 : v = v' := congrArg Prod.snd he
      subst h1
      subst h2
      simp [alookup]
    · have hk : k ∈ akeys tl := List.mem_map_of_mem Prod.fst hm
      have hne : k' ≠ k := by
        intro hh
        exact (List.nodup_cons.mp hn).1 (hh ▸ hk)
      simp [alookup, hne, ih hm (List.nodup_cons.mp hn).2]

theorem buildCfg_changes_lookup {CT : Type} (env : Env CT) (ks : List KeyConfig) :
    ∀ (pc0 : List (Nat × Int)) (pciph0 : List (Nat × List (CipherEntry CT)))
      (pc : List (Nat × Int)) (pciph : List (Nat × List (CipherEntry CT))),
      buildCfg env ks pc0 pciph0 = .ok (pc, pciph) → ∀ q : Nat,
      alookup pc q = if q ∈ ks.map KeyConfig.port then some 1 else alookup pc0 q := by
  induction ks with
  | nil =>
    intro pc0 pciph0 pc pciph h q
    simp only [buildCfg, Except.ok.injEq, Prod.mk.injEq] at h
    simp [h.1]
  | cons k ks ih =>
    intro pc0 pciph0 pc pciph h q
    simp only [buildCfg] at h
    cases hc : env.newCipher k.cipher k.secret with
    | error e => rw [hc] at h; exact absurd h (by simp)
    | ok c =>
      rw [hc] at h
      rw [ih _ _ _ _ h q]
      by_cases hq : q ∈ ks.map KeyConfig.port
      · simp [hq]
      · by_cases hqp : q = k.port
        · subst hqp
          simp [hq, alookup_aset_self]
        · simp [hq, hqp, alookup_aset_ne pc0 k.port q 1 (fun hh => hqp hh.symm)]

theorem buildCfg_nodup {CT : Type} (env : Env CT) (ks : List KeyConfig) :
    ∀ (pc0 : List (Nat × Int)) (pciph0 : List (Nat × List (CipherEntry CT)))
      (pc : List (Nat × Int)) (pciph : List (Nat × List (CipherEntry CT))),
      buildCfg env ks pc0 pciph0 = .ok (pc, pciph) →
      keysNodup pc0 → keysNodup pciph0 → keysNodup pc ∧ keysNodup pciph := by
  induction ks with
  | nil =>
    intro pc0 pciph0 pc pciph h h1 h2
    simp only [buildCfg, Except.ok.injEq, Prod.mk.injEq] at h
    rw [← h.1, ← h.2]
    exact ⟨h1, h2⟩
  | cons k ks ih =>
    intro pc0 pciph0 pc pciph h h1 h2
    simp only [buildCfg] at h
    cases hc : env.newCipher k.cipher k.secret with
    | error e => rw [hc] at h; exact absurd h (by simp)
    | ok c =>
      rw [hc] at h
      exact ih _ _ _ _ h (keysNodup_aset _ _ _ h1) (keysNodup_aset _ _ _ h2)

theorem specEntriesFor_nil_of_not_mem {CT : Type} (env : Env CT) (ks : List KeyConfig)
    (q : Nat) (h : q ∉ ks.map KeyConfig.port) : specEntriesFor env ks q = [] := by
  induction ks with
  | nil => rfl
  | cons k ks ih =>
    simp only [List.map_cons, List.mem_cons] at h
    push_neg at h
    have hne : ¬ k.port = q := fun hh => h.1 hh.symm
    simp [specEntriesFor, hne, ih h.2]

theorem specEntriesFor_cons_self {CT : Type} (env : Env CT) (k : KeyConfig)
    (ks : List KeyConfig) (c : CT) (hc : env.newCipher k.cipher k.secret = .ok c) :
    specEntriesFor env (k :: ks) k.port =
      ⟨k.id, c, k.secret⟩ :: specEntriesFor env ks k.port := by
  simp [specEntriesFor, hc]

theorem specEntriesFor_cons_ne {CT : Type} (env : Env CT) (k : KeyConfig)
    (ks : List KeyConfig) (q : Nat) (h : ¬ k.port = q) :
    specEntriesFor env (k :: ks) q = specEntriesFor env ks q := by
  simp [specEntriesFor, h]

theorem buildCfg_ciphers_lookup {CT : Type} (env : Env CT) (ks : List KeyConfig) :
    ∀ (pc0 : List (Nat × Int)) (pciph0 : List (Nat × List (CipherEntry CT)))
      (pc : List (Nat × Int)) (pciph : List (Nat × List (CipherEntry CT))),
      buildCfg env ks pc0 pciph0 = .ok (pc, pciph) → ∀ q : Nat,
      alookup pciph q =
        if q ∈ ks.map KeyConfig.port then
          some (((alookup pciph0 q).getD []) ++ specEntriesFor env ks q)
        else alookup pciph0 q := by
  induction ks with
  | nil =>
    intro pc0 pciph0 pc pciph h q
    simp only [buildCfg, Except.ok.injEq, Prod.mk.injEq] at h
    simp [h.2]
  | cons k ks ih =>
    intro pc0 pciph0 pc pciph h q
    simp only [buildCfg] at h
    cases hc : env.newCipher k.cipher k.secret with
    | error e => rw [hc] at h; exact absurd h (by simp)
    | ok c =>
      rw [hc] at h
      rw [ih _ _ _ _ h q]
      by_cases hqp : q = k.port
      · rw [hqp]
        rw [specEntriesFor_cons_self env k ks c hc]
        have hset := alookup_aset_self pciph0 k.port
          (((alookup pciph0 k.port).getD []) ++ [⟨k.id, c, k.secret⟩])
        have hqm : k.port ∈ (k :: ks).map KeyConfig.port := by
          simp [List.mem_cons]
        by_cases hq : k.port ∈ ks.map KeyConfig.port
        · rw [if_pos hq, if_pos hqm, hset]
          simp [List.append_assoc]
        · rw [if_neg hq, if_pos hqm, hset,
            specEntriesFor_nil_of_not_mem env ks k.port hq]
      · have hkq : ¬ k.port = q := fun hh => hqp hh.symm
        have hset : alookup (aset pciph0 k.port (((alookup pciph0 k.port).getD []) ++
            [⟨k.id, c, k.secret⟩])) q = alookup pciph0 q :=
          alookup_aset_ne _ _ _ _ hkq
        have hspec : specEntriesFor env (k :: ks) q = specEntriesFor env ks q :=
          specEntriesFor_cons_ne env k ks q hkq
        rw [hspec]
        by_cases hq : q ∈ ks.map KeyConfig.port
        · have hq2 : q ∈ (k :: ks).map KeyConfig.port := by
            simp [List.mem_cons, hq]
          rw [if_pos hq, if_pos hq2, hset]
        · have hq2 : q ∉ (k :: ks).map KeyConfig.port := by
            simp only [List.map_cons, List.mem_cons]
            rintro (h1 | h2)
            · exact hqp h1
            · exact hq h2
          rw [if_neg hq, if_neg hq2, hset]

theorem decrChanges_cons {CT : Type} (p : Nat) (b : SSPort CT) (tl : ServerState CT)
    (pc : List (Nat × Int)) :
    decrChanges ((p, b) :: tl) pc =
      decrChanges tl (aset pc p (((alookup pc p).getD 0) - 1)) := rfl

theorem decrChanges_lookup {CT : Type} (s : ServerState CT) :
    ∀ (pc : List (Nat × Int)), keysNodup s → ∀ q : Nat,
      alookup (decrChanges s pc) q =
        if q ∈ akeys s then some (((alookup pc q).getD 0) - 1) else alookup pc q := by
  induction s with
  | nil => intro pc _ q; simp [decrChanges, akeys]
  | cons hd tl ih =>
    intro pc hn q
    obtain ⟨p, b⟩ := hd
    have hn' : keysNodup tl := (List.nodup_cons.mp hn).2
    have hp : p ∉ akeys tl := (List.nodup_cons.mp hn).1
    rw [decrChanges_cons, ih _ hn' q, akeys_cons]
    by_cases hq : q ∈ akeys tl
    · have hqp : q ≠ p := fun hh => hp (hh ▸ hq)
      simp [hq, hqp, alookup_aset_ne pc p q _ (Ne.symm hqp)]
    · by_cases hqp : q = p
      · subst hqp
        simp [hq, alookup_aset_self]
      · simp [hq, hqp, alookup_aset_ne pc p q _ (fun hh => hqp hh.symm)]

theorem decrChanges_nodup {CT : Type} (s : ServerState CT) :
    ∀ pc : List (Nat × Int), keysNodup pc → keysNodup (decrChanges s pc) := by
  induction s with
  | nil => intro pc h; exact h
  | cons hd tl ih =>
    intro pc h
    obtain ⟨p, b⟩ := hd
    rw [decrChanges_cons]
    exact ih _ (keysNodup_aset _ _ _ h)

theorem removePort_eq_none {CT : Type} (env : Env CT) (p : Nat) (s : ServerState CT)
    (hb : alookup s p = none) :
    removePort env p s = ⟨s, [], some (.portMissing p)⟩ := by
  unfold removePort
  rw [hb]

theorem removePort_eq_some {CT : Type} (env : Env CT) (p : Nat) (s : ServerState CT)
    (b : SSPort CT) (hb : alookup s p = some b) :
    removePort env p s = ⟨aerase s p, [Ev.stopTCP p, Ev.stopUDP p],
      match env.tcpStop b.tcpID with
      | some e => some (GoErr.closeListener p e)
      | none =>
        match env.udpStop b.udpID with
        | some e => some (GoErr.closePacketConn p e)
        | none => none⟩ := by
  unfold removePort
  rw [hb]

theorem startPort_eq_tcpFail {CT : Type} (env : Env CT) (p : Nat) (s : ServerState CT)
    (e : GoErr) (ht : env.tcpListen p = .error e) :
    startPort env p s = ⟨s, [], some (.startTCPErr p e)⟩ := by
  unfold startPort
  rw [ht]

theorem startPort_eq_udpFail {CT : Type} (env : Env CT) (p : Nat) (s : ServerState CT)
    (tid : Nat) (e : GoErr) (ht : env.tcpListen p = .ok tid)
    (hu : env.udpListen p = .error e) :
    startPort env p s = ⟨s, [Ev.startTCP p], some (.startUDPErr p e)⟩ := by
  unfold startPort
  rw [ht, hu]

theorem startPort_eq_ok {CT : Type} (env : Env CT) (p : Nat) (s : ServerState CT)
    (tid uid : Nat) (ht : env.tcpListen p = .ok tid) (hu : env.udpListen p = .ok uid) :
    startPort env p s =
      ⟨aset s p ⟨tid, uid, []⟩, [Ev.startTCP p, Ev.startUDP p], none⟩ := by
  unfold startPort
  rw [ht, hu]

theorem removePort_state_lookup_ne {CT : Type} (env : Env CT) (p q : Nat)
    (s : ServerState CT) (h : p ≠ q) :
    alookup (removePort env p s).state q = alookup s q := by
  cases hl : alookup s p with
  | none => rw [removePort_eq_none env p s hl]
  | some b =>
    rw [removePort_eq_some env p s b hl]
    exact alookup_aerase_ne s p q h

theorem removePort_trace_at {CT : Type} (env : Env CT) (p q : Nat)
    (s : ServerState CT) (h : p ≠ q) :
    ∀ ev ∈ (removePort env p s).trace, isStartStopAt q ev = false := by
  cases hl : alookup s p with
  | none =>
    rw [removePort_eq_none env p s hl]
    intro ev hev
    simp at hev
  | some b =>
    rw [removePort_eq_some env p s b hl]
    intro ev hev
    simp only [List.mem_cons, List.not_mem_nil, or_false] at hev
    rcases hev with rfl | rfl <;> simp [isStartStopAt, h]

theorem removePort_nodup {CT : Type} (env : Env CT) (p : Nat) (s : ServerState CT)
    (h : keysNodup s) : keysNodup (removePort env p s).state := by
  cases hl : alookup s p with
  | none => rw [removePort_eq_none env p s hl]; exact h
  | some b => rw [removePort_eq_some env p s b hl]; exact keysNodup_aerase s p h

theorem startPort_state_lookup_ne {CT : Type} (env : Env CT) (p q : Nat)
    (s : ServerState CT) (h : p ≠ q) :
    alookup (startPort env p s).state q = alookup s q := by
  cases ht : env.tcpListen p with
  | error e => rw [startPort_eq_tcpFail env p s e ht]
  | ok tid =>
    cases hu : env.udpListen p with
    | error e => rw [startPort_eq_udpFail env p s tid e ht hu]
    | ok uid =>
      rw [startPort_eq_ok env p s tid uid ht hu]
      exact alookup_aset_ne s p q _ h

theorem startPort_trace_at {CT : Type} (env : Env CT) (p q : Nat)
    (s : ServerState CT) (h : p ≠ q) :
    ∀ ev ∈ (startPort env p s).trace, isStartStopAt q ev = false := by
  cases ht : env.tcpListen p with
  | error e =>
    rw [startPort_eq_tcpFail env p s e ht]
    intro ev hev
    simp at hev
  | ok tid =>
    cases hu : env.udpListen p with
    | error e =>
      rw [startPort_eq_udpFail env p s tid e ht hu]
      intro ev hev
      simp only [List.mem_cons, List.not_mem_nil, or_false] at hev
      rcases hev with rfl
      simp [isStartStopAt, h]
    | ok uid =>
      rw [startPort_eq_ok env p s tid uid ht hu]
      intro ev hev
      simp only [List.mem_cons, List.not_mem_nil, or_false] at hev
      rcases hev with rfl | rfl <;> simp [isStartStopAt, h]

theorem startPort_nodup {CT : Type} (env : Env CT) (p : Nat) (s : ServerState CT)
    (h : keysNodup s) : keysNodup (startPort env p s).state := by
  cases ht : env.tcpListen p with
  | error e => rw [startPort_eq_tcpFail env p s e ht]; exact h
  | ok tid =>
    cases hu : env.udpListen p with
    | error e => rw [startPort_eq_udpFail env p s tid e ht hu]; exact h
    | ok uid =>
      rw [startPort_eq_ok env p s tid uid ht hu]
      exact keysNodup_aset s p _ h

theorem applyChanges_nil {CT : Type} (env : Env CT) (s : ServerState CT) :
    applyChanges env [] s = ⟨s, [], none⟩ := rfl

theorem applyChanges_cons_zero {CT : Type} (env : Env CT) (p : Nat) (c : Int)
    (rest : List (Nat × Int)) (s : ServerState CT) (h1 : ¬ c = -1) (h2 : ¬ c = 1) :
    applyChanges env ((p, c) :: rest) s = applyChanges env rest s := by
  simp only [applyChanges]
  rw [if_neg h1, if_neg h2]

theorem applyChanges_cons_remove_fail {CT : Type} (env : Env CT) (p : Nat)
    (rest : List (Nat × Int)) (s : ServerState CT) (e : GoErr)
    (h : (removePort env p s).err = some e) :
    applyChanges env ((p, -1) :: rest) s =
      ⟨(removePort env p s).state, (removePort env p s).trace,
        some (.removeFailed p e)⟩ := by
  simp only [applyChanges, if_pos]
  rw [h]

theorem applyChanges_cons_remove_ok {CT : Type} (env : Env CT) (p : Nat)
    (rest : List (Nat × Int)) (s : ServerState CT)
    (h : (removePort env p s).err = none) :
    applyChanges env ((p, -1) :: rest) s =
      ⟨(applyChanges env rest (removePort env p s).state).state,
        (removePort env p s).trace ++
          (applyChanges env rest (removePort env p s).state).trace,
        (applyChanges env rest (removePort env p s).state).err⟩ := by
  simp only [applyChanges, if_pos]
  rw [h]

theorem applyChanges_cons_start_fail {CT : Type} (env : Env CT) (p : Nat)
    (rest : List (Nat × Int)) (s : ServerState CT) (e : GoErr)
    (h : (startPort env p s).err = some e) :
    applyChanges env ((p, 1) :: rest) s =
      ⟨(startPort env p s).state, (startPort env p s).trace,
        some (.startFailed p e)⟩ := by
  simp only [applyChanges]
  rw [if_neg (show ¬ (1 : Int) = -1 by decide), if_pos trivial, h]

theorem applyChanges_cons_start_ok {CT : Type} (env : Env CT) (p : Nat)
    (rest : List (Nat × Int)) (s : ServerState CT)
    (h : (startPort env p s).err = none) :
    applyChanges env ((p, 1) :: rest) s =
      ⟨(applyChanges env rest (startPort env p s).state).state,
        (startPort env p s).trace ++
          (applyChanges env rest (startPort env p s).state).trace,
        (applyChanges env rest (startPort env p s).state).err⟩ := by
  simp only [applyChanges]
  rw [if_neg (show ¬ (1 : Int) = -1 by decide), if_pos trivial, h]

theorem applyChanges_untouched {CT : Type} (env : Env CT) (l : List (Nat × Int)) :
    ∀ (s : ServerState CT) (q : Nat), keysNodup l →
      (∀ c : Int, alookup l q = some c → c = 0) →
      alookup (applyChanges env l s).state q = alookup s q ∧
      (∀ ev ∈ (applyChanges env l s).trace, isStartStopAt q ev = false) := by
  induction l with
  | nil =>
    intro s q _ _
    rw [applyChanges_nil]
    exact ⟨rfl, by intro ev hev; simp at hev⟩
  | cons hd rest ih =>
    intro s q hn hq
    obtain ⟨p, c⟩ := hd
    have hn' : keysNodup rest := (List.nodup_cons.mp hn).2
    have hqrest : ∀ c' : Int, alookup rest q = some c' → c' = 0 := by
      intro c' hc'
      by_cases hpq : p = q
      · have hnm : p ∉ akeys rest := (List.nodup_cons.mp hn).1
        rw [alookup_eq_none_of_not_mem rest q (hpq ▸ hnm)] at hc'
        cases hc'
      · refine hq c' ?_
        simp [alookup, hpq, hc']
    by_cases hpq : p = q
    · have hc0 : c = 0 := hq c (by simp [alookup, hpq])
      subst hc0
      rw [applyChanges_cons_zero env p 0 rest s (by decide) (by decide)]
      exact ih s q hn' hqrest
    · by_cases hcm : c = -1
      · subst hcm
        cases he : (removePort env p s).err with
        | some e =>
          rw [applyChanges_cons_remove_fail env p rest s e he]
          exact ⟨removePort_state_lookup_ne env p q s hpq,
            removePort_trace_at env p q s hpq⟩
        | none =>
          rw [applyChanges_cons_remove_ok env p rest s he]
          have hrec := ih (removePort env p s).state q hn' hqrest
          refine ⟨by rw [hrec.1, removePort_state_lookup_ne env p q s hpq], ?_⟩
          intro ev hev
          rcases List.mem_append.mp hev with h1 | h2
          · exact removePort_trace_at env p q s hpq ev h1
          · exact hrec.2 ev h2
      · by_cases hc1 : c = 1
        · subst hc1
          cases he : (startPort env p s).err with
          | some e =>
            rw [applyChanges_cons_start_fail env p rest s e he]
            exact ⟨startPort_state_lookup_ne env p q s hpq,
              startPort_trace_at env p q s hpq⟩
          | none =>
            rw [applyChanges_cons_start_ok env p rest s he]
            have hrec := ih (startPort env p s).state q hn' hqrest
            refine ⟨by rw [hrec.1, startPort_state_lookup_ne env p q s hpq], ?_⟩
            intro ev hev
            rcases List.mem_append.mp hev with h1 | h2
            · exact startPort_trace_at env p q s hpq ev h1
            · exact hrec.2 ev h2
        · rw [applyChanges_cons_zero env p c rest s hcm hc1]
          exact ih s q hn' hqrest

theorem applyChanges_nodup {CT : Type} (env : Env CT) (l : List (Nat × Int)) :
    ∀ s : ServerState CT, keysNodup s → keysNodup (applyChanges env l s).state := by
  induction l with
  | nil =>
    intro s h
    rw [applyChanges_nil]
    exact h
  | cons hd rest ih =>
    intro s h
    obtain ⟨p, c⟩ := hd
    by_cases hcm : c = -1
    · subst hcm
      cases he : (removePort env p s).err with
      | some e =>
        rw [applyChanges_cons_remove_fail env p rest s e he]
        exact removePort_nodup env p s h
      | none =>
        rw [applyChanges_cons_remove_ok env p rest s he]
        exact ih _ (removePort_nodup env p s h)
    · by_cases hc1 : c = 1
      · subst hc1
        cases he : (startPort env p s).err with
        | some e =>
          rw [applyChanges_cons_start_fail env p rest s e he]
          exact startPort_nodup env p s h
        | none =>
          rw [applyChanges_cons_start_ok env p rest s he]
          exact ih _ (startPort_nodup env p s h)
      · rw [applyChanges_cons_zero env p c rest s hcm hc1]
        exact ih s h

theorem applyChanges_started {CT : Type} (env : Env CT) (l : List (Nat × Int)) :
    ∀ (s : ServerState CT) (q : Nat), keysNodup l → alookup l q = some 1 →
      (applyChanges env l s).err = none →
      (alookup (applyChanges env l s).state q).isSome := by
  induction l with
  | nil =>
    intro s q _ hl
    rw [alookup] at hl
    cases hl
  | cons hd rest ih =>
    intro s q hn hl hok
    obtain ⟨p, c⟩ := hd
    have hn' : keysNodup rest := (List.nodup_cons.mp hn).2
    by_cases hpq : p = q
    · have hc1 : c = 1 := by simpa [alookup, hpq] using hl
      subst hc1
      have hrest_none : alookup rest q = none := by
        apply alookup_eq_none_of_not_mem
        exact fun hm => (List.nodup_cons.mp hn).1 (hpq ▸ hm)
      cases he : (startPort env p s).err with
      | some e =>
        rw [applyChanges_cons_start_fail env p rest s e he] at hok
        simp at hok
      | none =>
        rw [applyChanges_cons_start_ok env p rest s he]
        have hun := applyChanges_untouched env rest (startPort env p s).state q hn'
          (by intro c' hc'; rw [hrest_none] at hc'; cases hc')
        rw [hun.1]
        cases ht : env.tcpListen p with
        | error e0 =>
          rw [startPort_eq_tcpFail env p s e0 ht] at he
          simp at he
        | ok tid =>
          cases hu : env.udpListen p with
          | error e0 =>
            rw [startPort_eq_udpFail env p s tid e0 ht hu] at he
            simp at he
          | ok uid =>
            rw [startPort_eq_ok env p s tid uid ht hu, ← hpq]
            simp [alookup_aset_self]
    · have hl' : alookup rest q = some 1 := by simpa [alookup, hpq] using hl
      by_cases hcm : c = -1
      · subst hcm
        cases he : (removePort env p s).err with
        | some e =>
          rw [applyChanges_cons_remove_fail env p rest s e he] at hok
          simp at hok
        | none =>
          rw [applyChanges_cons_remove_ok env p rest s he] at hok ⊢
          exact ih _ q hn' hl' hok
      · by_cases hc1 : c = 1
        · subst hc1
          cases he : (startPort env p s).err with
          | some e =>
            rw [applyChanges_cons_start_fail env p rest s e he] at hok
            simp at hok
          | none =>
            rw [applyChanges_cons_start_ok env p rest s he] at hok ⊢
            exact ih _ q hn' hl' hok
        · rw [applyChanges_cons_zero env p c rest s hcm hc1] at hok ⊢
          exact ih s q hn' hl' hok

theorem applyChanges_removed {CT : Type} (env : Env CT) (l : List (Nat × Int)) :
    ∀ (s : ServerState CT) (q : Nat), keysNodup l → keysNodup s →
      alookup l q = some (-1) → (applyChanges env l s).err = none →
      alookup (applyChanges env l s).state q = none := by
  induction l with
  | nil =>
    intro s q _ _ hl
    rw [alookup] at hl
    cases hl
  | cons hd rest ih =>
    intro s q hn hns hl hok
    obtain ⟨p, c⟩ := hd
    have hn' : keysNodup rest := (List.nodup_cons.mp hn).2
    by_cases hpq : p = q
    · have hcm : c = -1 := by simpa [alookup, hpq] using hl
      subst hcm
      have hrest_none : alookup rest q = none := by
        apply alookup_eq_none_of_not_mem
        exact fun hm => (List.nodup_cons.mp hn).1 (hpq ▸ hm)
      cases he : (removePort env p s).err with
      | some e =>
        rw [applyChanges_cons_remove_fail env p rest s e he] at hok
        simp at hok
      | none =>
        rw [applyChanges_cons_remove_ok env p rest s he]
        have hun := applyChanges_untouched env rest (removePort env p s).state q hn'
          (by intro c' hc'; rw [hrest_none] at hc'; cases hc')
        rw [hun.1]
        cases hsp : alookup s p with
        | none =>
          rw [removePort_eq_none env p s hsp] at he
          simp at he
        | some b =>
          rw [removePort_eq_some env p s b hsp, ← hpq]
          exact alookup_aerase_self s p hns
    · have hl' : alookup rest q = some (-1) := by simpa [alookup, hpq] using hl
      by_cases hcm : c = -1
      · subst hcm
        cases he : (removePort env p s).err with
        | some e =>
          rw [applyChanges_cons_remove_fail env p rest s e he] at hok
          simp at hok
        | none =>
          rw [applyChanges_cons_remove_ok env p rest s he] at hok ⊢
          exact ih _ q hn' (removePort_nodup env p s hns) hl' hok
      · by_cases hc1 : c = 1
        · subst hc1
          cases he : (startPort env p s).err with
          | some e =>
            rw [applyChanges_cons_start_fail env p rest s e he] at hok
            simp at hok
          | none =>
            rw [applyChanges_cons_start_ok env p rest s he] at hok ⊢
            exact ih _ q hn' (startPort_nodup env p s hns) hl' hok
        · rw [applyChanges_cons_zero env p c rest s hcm hc1] at hok ⊢
          exact ih s q hn' hns hl' hok

theorem applyChanges_no_action {CT : Type} (env : Env CT) (l : List (Nat × Int)) :
    (∀ e ∈ l, e.2 = (0 : Int)) → ∀ s : ServerState CT,
      applyChanges env l s = ⟨s, [], none⟩ := by
  induction l with
  | nil => intro _ s; rfl
  | cons hd rest ih =>
    intro h s
    obtain ⟨p, c⟩ := hd
    have hc : c = 0 := h (p, c) (List.mem_cons_self _ _)
    subst hc
    rw [applyChanges_cons_zero env p 0 rest s (by decide) (by decide)]
    exact ih (fun e he => h e (List.mem_cons_of_mem _ he)) s

theorem applyChanges_append {CT : Type} (env : Env CT) (l1 : List (Nat × Int)) :
    ∀ (l2 : List (Nat × Int)) (s : ServerState CT),
      (applyChanges env l1 s).err = none →
      applyChanges env (l1 ++ l2) s =
        ⟨(applyChanges env l2 (applyChanges env l1 s).state).state,
          (applyChanges env l1 s).trace ++
            (applyChanges env l2 (applyChanges env l1 s).state).trace,
          (applyChanges env l2 (applyChanges env l1 s).state).err⟩ := by
  induction l1 with
  | nil =>
    intro l2 s _
    rw [applyChanges_nil]
    simp
  | cons hd rest ih =>
    intro l2 s hok
    obtain ⟨p, c⟩ := hd
    by_cases hcm : c = -1
    · subst hcm
      cases he : (removePort env p s).err with
      | some e =>
        rw [applyChanges_cons_remove_fail env p rest s e he] at hok
        simp at hok
      | none =>
        rw [applyChanges_cons_remove_ok env p rest s he] at hok
        rw [show ((p, -1) :: rest) ++ l2 = (p, -1) :: (rest ++ l2) from rfl,
          applyChanges_cons_remove_ok env p (rest ++ l2) s he,
          applyChanges_cons_remove_ok env p rest s he,
          ih l2 (removePort env p s).state hok]
        simp [List.append_assoc]
    · by_cases hc1 : c = 1
      · subst hc1
        cases he : (startPort env p s).err with
        | some e =>
          rw [applyChanges_cons_start_fail env p rest s e he] at hok
          simp at hok
        | none =>
          rw [applyChanges_cons_start_ok env p rest s he] at hok
          rw [show ((p, 1) :: rest) ++ l2 = (p, 1) :: (rest ++ l2) from rfl,
            applyChanges_cons_start_ok env p (rest ++ l2) s he,
            applyChanges_cons_start_ok env p rest s he,
            ih l2 (startPort env p s).state hok]
          simp [List.append_assoc]
      · rw [applyChanges_cons_zero env p c rest s hcm hc1] at hok
        rw [show ((p, c) :: rest) ++ l2 = (p, c) :: (rest ++ l2) from rfl,
          applyChanges_cons_zero env p c (rest ++ l2) s hcm hc1,
          applyChanges_cons_zero env p c rest s hcm hc1,
          ih l2 s hok]

theorem applyChanges_err_shape {CT : Type} (env : Env CT) (l : List (Nat × Int)) :
    ∀ (s : ServerState CT) (e : GoErr), (applyChanges env l s).err = some e →
      ∃ p c, e = .removeFailed p c ∨ e = .startFailed p c := by
  induction l with
  | nil =>
    intro s e h
    rw [applyChanges_nil] at h
    cases h
  | cons hd rest ih =>
    intro s e h
    obtain ⟨p, c⟩ := hd
    by_cases hcm : c = -1
    · subst hcm
      cases he : (removePort env p s).err with
      | some e0 =>
        rw [applyChanges_cons_remove_fail env p rest s e0 he] at h
        simp only [Option.some.injEq] at h
        exact ⟨p, e0, Or.inl h.symm⟩
      | none =>
        rw [applyChanges_cons_remove_ok env p rest s he] at h
        exact ih _ e h
    · by_cases hc1 : c = 1
      · subst hc1
        cases he : (startPort env p s).err with
        | some e0 =>
          rw [applyChanges_cons_start_fail env p rest s e0 he] at h
          simp only [Option.some.injEq] at h
          exact ⟨p, e0, Or.inr h.symm⟩
        | none =>
          rw [applyChanges_cons_start_ok env p rest s he] at h
          exact ih _ e h
      · rw [applyChanges_cons_zero env p c rest s hcm hc1] at h
        exact ih s e h

theorem buildCfg_err_shape {CT : Type} (env : Env CT) (ks : List KeyConfig) :
    ∀ (pc0 : List (Nat × Int)) (pciph0 : List (Nat × List (CipherEntry CT))) (e : GoErr),
      buildCfg env ks pc0 pciph0 = .error e → isCipherCreateErr e = true := by
  induction ks with
  | nil =>
    intro pc0 pciph0 e h
    simp [buildCfg] at h
  | cons k ks ih =>
    intro pc0 pciph0 e h
    simp only [buildCfg] at h
    cases hc : env.newCipher k.cipher k.secret with
    | error e0 =>
      rw [hc] at h
      simp only [Except.error.injEq] at h
      rw [← h]
      rfl
    | ok c =>
      rw [hc] at h
      exact ih _ _ e h

theorem amodifyCiphers_lookup {CT : Type} (s : ServerState CT) (p : Nat)
    (es : List (CipherEntry CT)) (q : Nat) :
    alookup (amodifyCiphers s p es) q =
      if p = q then (alookup s q).map (fun b => { b with ciphers := es })
      else alookup s q := by
  induction s with
  | nil => by_cases h : p = q <;> simp [amodifyCiphers, alookup, h]
  | cons hd tl ih =>
    obtain ⟨k, b⟩ := hd
    by_cases hk : k = p
    · subst hk
      by_cases hq : k = q
      · simp [amodifyCiphers, alookup, hq]
      · simp [amodifyCiphers, alookup, hq]
    · by_cases hq : k = q
      · have hpq : ¬ p = q := fun hh => hk (hq.trans hh.symm)
        simp only [amodifyCiphers, if_neg hk, if_neg hpq]
        simp [alookup, hq]
      · simp [amodifyCiphers, alookup, hk, hq, ih]

theorem akeys_amodify {CT : Type} (s : ServerState CT) (p : Nat)
    (es : List (CipherEntry CT)) : akeys (amodifyCiphers s p es) = akeys s := by
  induction s with
  | nil => rfl
  | cons hd tl ih =>
    obtain ⟨k, b⟩ := hd
    by_cases hk : k = p
    · simp [amodifyCiphers, hk, akeys]
    · simp only [amodifyCiphers, if_neg hk]
      rw [akeys_cons, akeys_cons, ih]

theorem updateAllCiphers_lookup_none {CT : Type} (l : List (Nat × List (CipherEntry CT))) :
    ∀ (s : ServerState CT) (q : Nat), alookup l q = none →
      alookup (updateAllCiphers l s).1 q = alookup s q := by
  induction l with
  | nil => intro s q _; rfl
  | cons hd rest ih =>
    intro s q h
    obtain ⟨p, es⟩ := hd
    have hp : ¬ p = q := by
      intro hh
      rw [alookup, if_pos hh] at h
      cases h
    have hrest : alookup rest q = none := by
      rw [alookup, if_neg hp] at h
      exact h
    show alookup (updateAllCiphers rest (amodifyCiphers s p es)).1 q = alookup s q
    rw [ih _ q hrest, amodifyCiphers_lookup s p es q, if_neg hp]

theorem updateAllCiphers_lookup_some {CT : Type} (l : List (Nat × List (CipherEntry CT))) :
    ∀ (s : ServerState CT) (q : Nat) (es : List (CipherEntry CT)), keysNodup l →
      alookup l q = some es →
      alookup (updateAllCiphers l s).1 q =
        (alookup s q).map (fun b => { b with ciphers := es }) := by
  induction l with
  | nil =>
    intro s q es _ h
    rw [alookup] at h
    cases h
  | cons hd rest ih =>
    intro s q es hn h
    obtain ⟨p, es0⟩ := hd
    by_cases hp : p = q
    · have hes : es0 = es := by
        rw [alookup, if_pos hp] at h
        exact Option.some.inj h
      have hrest : alookup rest q = none := by
        apply alookup_eq_none_of_not_mem
        exact fun hm => (List.nodup_cons.mp hn).1 (hp ▸ hm)
      show alookup (updateAllCiphers rest (amodifyCiphers s p es0)).1 q = _
      rw [updateAllCiphers_lookup_none rest _ q hrest,
        amodifyCiphers_lookup s p es0 q, if_pos hp, hes]
    · have hrest : alookup rest q = some es := by
        rw [alookup, if_neg hp] at h
        exact h
      show alookup (updateAllCiphers rest (amodifyCiphers s p es0)).1 q = _
      rw [ih _ q es (List.nodup_cons.mp hn).2 hrest,
        amodifyCiphers_lookup s p es0 q, if_neg hp]

theorem updateAllCiphers_isSome {CT : Type} (l : List (Nat × List (CipherEntry CT))) :
    ∀ (s : ServerState CT) (q : Nat),
      (alookup (updateAllCiphers l s).1 q).isSome = (alookup s q).isSome := by
  induction l with
  | nil => intro s q; rfl
  | cons hd rest ih =>
    intro s q
    obtain ⟨p, es⟩ := hd
    show (alookup (updateAllCiphers rest (amodifyCiphers s p es)).1 q).isSome = _
    rw [ih, amodifyCiphers_lookup s p es q]
    by_cases hp : p = q
    · rw [if_pos hp]
      cases alookup s q <;> rfl
    · rw [if_neg hp]

theorem updateAllCiphers_nodup {CT : Type} (l : List (Nat × List (CipherEntry CT))) :
    ∀ s : ServerState CT, keysNodup s → keysNodup (updateAllCiphers l s).1 := by
  induction l with
  | nil => intro s h; exact h
  | cons hd rest ih =>
    intro s h
    obtain ⟨p, es⟩ := hd
    show keysNodup (updateAllCiphers rest (amodifyCiphers s p es)).1
    apply ih
    unfold keysNodup
    rw [akeys_amodify]
    exact h

theorem updateAllCiphers_trace {CT : Type} (l : List (Nat × List (CipherEntry CT))) :
    ∀ s : ServerState CT, ∀ ev ∈ (updateAllCiphers l s).2, isStartStop ev = false := by
  induction l with
  | nil =>
    intro s ev hev
    simp [updateAllCiphers] at hev
  | cons hd rest ih =>
    intro s ev hev
    obtain ⟨p, es⟩ := hd
    have hev' : ev ∈ Ev.updateCiphers p es ::
        (updateAllCiphers rest (amodifyCiphers s p es)).2 := hev
    rcases List.mem_cons.mp hev' with rfl | hm
    · rfl
    · exact ih _ ev hm

theorem isStartStopAt_of_not_startStop {CT : Type} (p : Nat) (ev : Ev CT)
    (h : isStartStop ev = false) : isStartStopAt p ev = false := by
  cases ev <;> simp_all [isStartStop, isStartStopAt]

theorem loadConfigGo_err {CT : Type} (env : Env CT) (s : ServerState CT) (e : GoErr) :
    loadConfigGo env s (.error e) = ⟨s, [], some e⟩ := rfl

theorem loadConfigGo_ok_fail {CT : Type} (env : Env CT) (s : ServerState CT)
    (pc : List (Nat × Int)) (pciph : List (Nat × List (CipherEntry CT))) (e : GoErr)
    (ha : (applyChanges env (decrChanges s pc) s).err = some e) :
    loadConfigGo env s (.ok (pc, pciph)) =
      ⟨(applyChanges env (decrChanges s pc) s).state,
        (applyChanges env (decrChanges s pc) s).trace, some e⟩ := by
  simp only [loadConfigGo]
  rw [ha]

theorem loadConfigGo_ok_ok {CT : Type} (env : Env CT) (s : ServerState CT)
    (pc : List (Nat × Int)) (pciph : List (Nat × List (CipherEntry CT)))
    (ha : (applyChanges env (decrChanges s pc) s).err = none) :
    loadConfigGo env s (.ok (pc, pciph)) =
      ⟨(updateAllCiphers pciph (applyChanges env (decrChanges s pc) s).state).1,
        (applyChanges env (decrChanges s pc) s).trace ++
          (updateAllCiphers pciph (applyChanges env (decrChanges s pc) s).state).2,
        none⟩ := by
  simp only [loadConfigGo]
  rw [ha]

theorem loadConfig_membership {CT : Type} (env : Env CT) (config : Config)
    (s : ServerState CT) (hs : keysNodup s)
    (hok : (loadConfig env config s).err = none) :
    keysNodup (loadConfig env config s).state ∧
    (∀ q, (alookup (loadConfig env config s).state q).isSome = true ↔
      q ∈ config.keys.map KeyConfig.port) := by
  unfold loadConfig at hok ⊢
  cases hbc : buildCfg env config.keys [] [] with
  | error e =>
    rw [hbc, loadConfigGo_err env s e] at hok
    simp at hok
  | ok bc =>
    obtain ⟨pc, pciph⟩ := bc
    rw [hbc] at hok
    have hnodups := buildCfg_nodup env config.keys [] [] pc pciph hbc
      (by simp [keysNodup, akeys]) (by simp [keysNodup, akeys])
    have hpc_nodup : keysNodup (decrChanges s pc) := decrChanges_nodup s pc hnodups.1
    cases herr : (applyChanges env (decrChanges s pc) s).err with
    | some e =>
      rw [loadConfigGo_ok_fail env s pc pciph e herr] at hok
      simp at hok
    | none =>
      rw [loadConfigGo_ok_ok env s pc pciph herr]
      constructor
      · show keysNodup
          (updateAllCiphers pciph (applyChanges env (decrChanges s pc) s).state).1
        exact updateAllCiphers_nodup pciph _ (applyChanges_nodup env _ s hs)
      · intro q
        show (alookup
          (updateAllCiphers pciph (applyChanges env (decrChanges s pc) s).state).1
            q).isSome = true ↔ _
        rw [updateAllCiphers_isSome pciph _ q]
        constructor
        · intro hq
          by_contra hnq
          by_cases hqs : q ∈ akeys s
          · have hneg : alookup (decrChanges s pc) q = some (-1) := by
              rw [decrChanges_lookup s pc hs q, if_pos hqs,
                buildCfg_changes_lookup env config.keys [] [] pc pciph hbc q,
                if_neg hnq]
              rfl
            have hrem := applyChanges_removed env (decrChanges s pc) s q
              hpc_nodup hs hneg herr
            rw [hrem] at hq
            simp at hq
          · have hnone : alookup (decrChanges s pc) q = none := by
              rw [decrChanges_lookup s pc hs q, if_neg hqs,
                buildCfg_changes_lookup env config.keys [] [] pc pciph hbc q,
                if_neg hnq]
              rfl
            have hunt2 := applyChanges_untouched env (decrChanges s pc) s q hpc_nodup
              (by intro c hc; rw [hnone] at hc; cases hc)
            rw [hunt2.1, alookup_eq_none_of_not_mem s q hqs] at hq
            simp at hq
        · intro hq
          by_cases hqs : q ∈ akeys s
          · have hzeroq : alookup (decrChanges s pc) q = some 0 := by
              rw [decrChanges_lookup s pc hs q, if_pos hqs,
                buildCfg_changes_lookup env config.keys [] [] pc pciph hbc q,
                if_pos hq]
              rfl
            have hunt2 := applyChanges_untouched env (decrChanges s pc) s q hpc_nodup
              (by intro c hc; rw [hzeroq] at hc; exact (Option.some.inj hc).symm)
            rw [hunt2.1]
            exact (mem_akeys_iff_isSome s q).mp hqs
          · have hone : alookup (decrChanges s pc) q = some 1 := by
              rw [decrChanges_lookup s pc hs q, if_neg hqs,
                buildCfg_changes_lookup env config.keys [] [] pc pciph hbc q,
                if_pos hq]
            exact applyChanges_started env (decrChanges s pc) s q hpc_nodup hone herr

theorem loadConfig_second_pass {CT : Type} (env : Env CT) (config : Config)
    (t : ServerState CT) (hnodup2 : keysNodup t)
    (hmem2 : ∀ q, (alookup t q).isSome = true ↔ q ∈ config.keys.map KeyConfig.port) :
    ∀ ev ∈ (loadConfig env config t).trace, isStartStop ev = false := by
  unfold loadConfig
  cases hbc : buildCfg env config.keys [] [] with
  | error e =>
    intro ev hev
    rw [loadConfigGo_err env t e] at hev
    simp at hev
  | ok bc =>
    obtain ⟨pc, pciph⟩ := bc
    have hnodups := buildCfg_nodup env config.keys [] [] pc pciph hbc
      (by simp [keysNodup, akeys]) (by simp [keysNodup, akeys])
    have hzero : ∀ e ∈ decrChanges t pc, e.2 = (0 : Int) := by
      intro e he
      obtain ⟨q, c⟩ := e
      have hlk : alookup (decrChanges t pc) q = some c :=
        alookup_of_mem_nodup _ q c he (decrChanges_nodup t pc hnodups.1)
      rw [decrChanges_lookup t pc hnodup2 q,
        buildCfg_changes_lookup env config.keys [] [] pc pciph hbc q] at hlk
      by_cases hq : q ∈ akeys t
      · have hqc : q ∈ config.keys.map KeyConfig.port :=
          (hmem2 q).mp ((mem_akeys_iff_isSome t q).mp hq)
        rw [if_pos hq, if_pos hqc] at hlk
        simpa using hlk.symm
      · rw [if_neg hq] at hlk
        by_cases hqc : q ∈ config.keys.map KeyConfig.port
        · have habs := (hmem2 q).mpr hqc
          rw [alookup_eq_none_of_not_mem t q hq] at habs
          simp at habs
        · rw [if_neg hqc] at hlk
          rw [alookup] at hlk
          cases hlk
    have hnoact := applyChanges_no_action env (decrChanges t pc) hzero t
    have herr2 : (applyChanges env (decrChanges t pc) t).err = none := by
      rw [hnoact]
    intro ev hev
    rw [loadConfigGo_ok_ok env t pc pciph herr2, hnoact] at hev
    have hev' : ev ∈ (⟨t, [], none⟩ : StepResult CT).trace ++
        (updateAllCiphers pciph (⟨t, [], none⟩ : StepResult CT).state).2 := hev
    rw [List.nil_append] at hev'
    exact updateAllCiphers_trace pciph t ev hev'

theorem loadConfig_port_kept {CT : Type} (env : Env CT) (config : Config)
    (s : ServerState CT) (p : Nat) (b : SSPort CT)
    (hs : keysNodup s) (hb : alookup s p = some b)
    (hp : p ∈ config.keys.map KeyConfig.port) :
    (∀ ev ∈ (loadConfig env config s).trace, isStartStopAt p ev = false) ∧
    ((loadConfig env config s).err = none →
      alookup (loadConfig env config s).state p =
        some { b with ciphers := specEntriesFor env config.keys p }) := by
  unfold loadConfig
  cases hbc : buildCfg env config.keys [] [] with
  | error e =>
    rw [loadConfigGo_err env s e]
    refine ⟨?_, ?_⟩
    · intro ev hev
      simp at hev
    · intro h
      simp at h
  | ok bc =>
    obtain ⟨pc, pciph⟩ := bc
    have hnodups := buildCfg_nodup env config.keys [] [] pc pciph hbc
      (by simp [keysNodup, akeys]) (by simp [keysNodup, akeys])
    have hpc_nodup : keysNodup (decrChanges s pc) := decrChanges_nodup s pc hnodups.1
    have hmem_s : p ∈ akeys s := (mem_akeys_iff_isSome s p).mpr (by rw [hb]; rfl)
    have hpc_p : alookup (decrChanges s pc) p = some 0 := by
      rw [decrChanges_lookup s pc hs p, if_pos hmem_s,
        buildCfg_changes_lookup env config.keys [] [] pc pciph hbc p, if_pos hp]
      rfl
    have hunt := applyChanges_untouched env (decrChanges s pc) s p hpc_nodup
      (by intro c hc; rw [hpc_p] at hc; exact (Option.some.inj hc).symm)
    cases herr : (applyChanges env (decrChanges s pc) s).err with
    | some e =>
      rw [loadConfigGo_ok_fail env s pc pciph e herr]
      refine ⟨hunt.2, ?_⟩
      intro h
      simp at h
    | none =>
      rw [loadConfigGo_ok_ok env s pc pciph herr]
      refine ⟨?_, ?_⟩
      · intro ev hev
        have hev' : ev ∈ (applyChanges env (decrChanges s pc) s).trace ++
            (updateAllCiphers pciph (applyChanges env (decrChanges s pc) s).state).2 :=
          hev
        rcases List.mem_append.mp hev' with h1 | h2
        · exact hunt.2 ev h1
        · exact isStartStopAt_of_not_startStop p ev
            (updateAllCiphers_trace pciph _ ev h2)
      · intro _
        have hr_state :
            alookup (applyChanges env (decrChanges s pc) s).state p = some b := by
          rw [hunt.1, hb]
        have hpciph_p : alookup pciph p = some (specEntriesFor env config.keys p) := by
          rw [buildCfg_ciphers_lookup env config.keys [] [] pc pciph hbc p, if_pos hp]
          rfl
        show alookup
          (updateAllCiphers pciph (applyChanges env (decrChanges s pc) s).state).1 p = _
        rw [updateAllCiphers_lookup_some pciph _ p _ hnodups.2 hpciph_p, hr_state]
        rfl

/-- C1: for every running state and new configuration, a port that is
both currently bound and named in the new configuration sees neither a
stop nor a start during the reconcile pass — its TCP and UDP services
are untouched — and a successful pass replaces exactly its cipher set,
using only the new configuration's entries for that port; consequently,
after a successful pass, reconciling again with the same configuration
performs zero starts and stops. -/
theorem loadConfig_stable_ports {CT : Type} (env : Env CT) (config : Config)
    (s : ServerState CT) (p : Nat) (b : SSPort CT)
    (hs : keysNodup s) (hb : alookup s p = some b) (hp : p ∈ cfgPorts config) :
    (∀ ev ∈ (loadConfig env config s).trace, isStartStopAt p ev = false) ∧
    ((loadConfig env config s).err = none →
      alookup (loadConfig env config s).state p =
        some { b with ciphers := specEntriesFor env config.keys p }) ∧
    ((loadConfig env config s).err = none →
      ∀ ev ∈ (loadConfig env config (loadConfig env config s).state).trace,
        isStartStop ev = false) := by
  have hp' : p ∈ config.keys.map KeyConfig.port := hp
  have hkept := loadConfig_port_kept env config s p b hs hb hp'
  refine ⟨hkept.1, hkept.2, ?_⟩
  intro hok
  have hm := loadConfig_membership env config s hs hok
  exact loadConfig_second_pass env config (loadConfig env config s).state hm.1 hm.2

theorem loadConfig_stable_ports_witness :
    keysNodup statePort1 ∧
    alookup statePort1 1 = some ⟨10, 11, [⟨"A", (), "s1"⟩]⟩ ∧
    1 ∈ cfgPorts cfg12 ∧
    ((∀ ev ∈ (loadConfig envOK cfg12 statePort1).trace, isStartStopAt 1 ev = false) ∧
      ((loadConfig envOK cfg12 statePort1).err = none →
        alookup (loadConfig envOK cfg12 statePort1).state 1 =
          some (⟨10, 11, specEntriesFor envOK cfg12.keys 1⟩ : SSPort Unit)) ∧
      ((loadConfig envOK cfg12 statePort1).err = none →
        ∀ ev ∈ (loadConfig envOK cfg12 (loadConfig envOK cfg12 statePort1).state).trace,
          isStartStop ev = false)) :=
  ⟨by decide, by decide, by decide,
    loadConfig_stable_ports envOK cfg12 statePort1 1 ⟨10, 11, [⟨"A", (), "s1"⟩]⟩
      (by decide) (by decide) (by decide)⟩

/-- C2: a failed reconcile returns a non-nil error and leaves the state
exactly as the already-applied steps produced it: a cipher-creation
failure happens before any port change, so the prior state and trace are
exactly unchanged; every other reconcile error names the single failed
port; and a stop or start failure at one port aborts the delta loop with
earlier ports' stops and starts still in effect and later entries never
processed (no rollback). -/
theorem loadConfig_failure_semantics {CT : Type} (env : Env CT) (config : Config)
    (s : ServerState CT) :
    (∀ e, (loadConfig env config s).err = some e → isCipherCreateErr e = true →
      loadConfig env config s = ⟨s, [], some e⟩) ∧
    (∀ e, (loadConfig env config s).err = some e → isCipherCreateErr e = false →
      (failurePort e).isSome = true) ∧
    (∀ e, (loadConfig env config s).err = some e → isCipherCreateErr e = false →
      ∃ pc pciph, buildCfg env config.keys [] [] = .ok (pc, pciph) ∧
        loadConfig env config s =
          ⟨(applyChanges env (decrChanges s pc) s).state,
            (applyChanges env (decrChanges s pc) s).trace, some e⟩) ∧
    (∀ (l1 l2 : List (Nat × Int)) (p : Nat) (e : GoErr) (t : ServerState CT),
      (applyChanges env l1 t).err = none →
      (removePort env p (applyChanges env l1 t).state).err = some e →
      applyChanges env (l1 ++ (p, -1) :: l2) t =
        ⟨(removePort env p (applyChanges env l1 t).state).state,
          (applyChanges env l1 t).trace ++
            (removePort env p (applyChanges env l1 t).state).trace,
          some (.removeFailed p e)⟩) ∧
    (∀ (l1 l2 : List (Nat × Int)) (p : Nat) (e : GoErr) (t : ServerState CT),
      (applyChanges env l1 t).err = none →
      (startPort env p (applyChanges env l1 t).state).err = some e →
      applyChanges env (l1 ++ (p, 1) :: l2) t =
        ⟨(startPort env p (applyChanges env l1 t).state).state,
          (applyChanges env l1 t).trace ++
            (startPort env p (applyChanges env l1 t).state).trace,
          some (.startFailed p e)⟩) := by
  refine ⟨?_, ?_, ?_, ?_, ?_⟩
  · intro e he hcip
    unfold loadConfig at he ⊢
    cases hbc : buildCfg env config.keys [] [] with
    | error e0 =>
      rw [hbc, loadConfigGo_err env s e0] at he
      have he' : e0 = e := Option.some.inj he
      rw [loadConfigGo_err env s e0, he']
    | ok bc =>
      obtain ⟨pc, pciph⟩ := bc
      rw [hbc] at he
      cases herr : (applyChanges env (decrChanges s pc) s).err with
      | some e0 =>
        rw [loadConfigGo_ok_fail env s pc pciph e0 herr] at he
        have he' : e0 = e := Option.some.inj he
        obtain ⟨p0, c0, hsh⟩ := applyChanges_err_shape env (decrChanges s pc) s e0 herr
        rcases hsh with rfl | rfl <;> rw [← he'] at hcip <;> cases hcip
      | none =>
        rw [loadConfigGo_ok_ok env s pc pciph herr] at he
        cases he
  · intro e he hcip
    unfold loadConfig at he
    cases hbc : buildCfg env config.keys [] [] with
    | error e0 =>
      rw [hbc, loadConfigGo_err env s e0] at he
      have he' : e0 = e := Option.some.inj he
      have := buildCfg_err_shape env config.keys [] [] e0 hbc
      rw [he'] at this
      rw [this] at hcip
      cases hcip
    | ok bc =>
      obtain ⟨pc, pciph⟩ := bc
      rw [hbc] at he
      cases herr : (applyChanges env (decrChanges s pc) s).err with
      | some e0 =>
        rw [loadConfigGo_ok_fail env s pc pciph e0 herr] at he
        have he' : e0 = e := Option.some.inj he
        obtain ⟨p0, c0, hsh⟩ := applyChanges_err_shape env (decrChanges s pc) s e0 herr
        rw [← he']
        rcases hsh with rfl | rfl <;> rfl
      | none =>
        rw [loadConfigGo_ok_ok env s pc pciph herr] at he
        cases he
  · intro e he hcip
    unfold loadConfig at he ⊢
    cases hbc : buildCfg env config.keys [] [] with
    | error e0 =>
      rw [hbc, loadConfigGo_err env s e0] at he
      have he' : e0 = e := Option.some.inj he
      have := buildCfg_err_shape env config.keys [] [] e0 hbc
      rw [he'] at this
      rw [this] at hcip
      cases hcip
    | ok bc =>
      obtain ⟨pc, pciph⟩ := bc
      rw [hbc] at he
      cases herr : (applyChanges env (decrChanges s pc) s).err with
      | some e0 =>
        rw [loadConfigGo_ok_fail env s pc pciph e0 herr] at he
        have he' : e0 = e := Option.some.inj he
        refine ⟨pc, pciph, rfl, ?_⟩
        rw [loadConfigGo_ok_fail env s pc pciph e0 herr, he']
      | none =>
        rw [loadConfigGo_ok_ok env s pc pciph herr] at he
        cases he
  · intro l1 l2 p e t h1 h2
    rw [applyChanges_append env l1 ((p, -1) :: l2) t h1,
      applyChanges_cons_remove_fail env p l2 (applyChanges env l1 t).state e h2]
  · intro l1 l2 p e t h1 h2
    rw [applyChanges_append env l1 ((p, 1) :: l2) t h1,
      applyChanges_cons_start_fail env p l2 (applyChanges env l1 t).state e h2]

theorem loadConfig_failure_semantics_witness :
    loadConfig envBadCipher cfg12 statePort1 =
      ⟨statePort1, [], some (.cipherCreate "A" (.external "bad key"))⟩ ∧
    (failurePort (.removeFailed 1 (.closeListener 1 (.external "T")))).isSome = true ∧
    applyChanges envStopsFail ([] ++ (1, -1) :: []) statePort1 =
      ⟨(removePort envStopsFail 1 (applyChanges envStopsFail [] statePort1).state).state,
        (applyChanges envStopsFail [] statePort1).trace ++
          (removePort envStopsFail 1
            (applyChanges envStopsFail [] statePort1).state).trace,
        some (.removeFailed 1 (.closeListener 1 (.external "T")))⟩ ∧
    applyChanges envListenFail ([] ++ (2, 1) :: []) [] =
      ⟨(startPort envListenFail 2 (applyChanges envListenFail [] []).state).state,
        (applyChanges envListenFail [] []).trace ++
          (startPort envListenFail 2 (applyChanges envListenFail [] []).state).trace,
        some (.startFailed 2 (.startTCPErr 2 (.external "address in use")))⟩ :=
  ⟨(loadConfig_failure_semantics envBadCipher cfg12 statePort1).1
      (.cipherCreate "A" (.external "bad key")) (by decide) (by decide),
    (loadConfig_failure_semantics envStopsFail ⟨[]⟩ statePort1).2.1
      (.removeFailed 1 (.closeListener 1 (.external "T"))) (by decide) (by decide),
    (loadConfig_failure_semantics envStopsFail ⟨[]⟩ statePort1).2.2.2.1
      [] [] 1 (.closeListener 1 (.external "T")) statePort1 (by decide) (by decide),
    (loadConfig_failure_semantics envListenFail ⟨[]⟩ []).2.2.2.2
      [] [] 2 (.startTCPErr 2 (.external "address in use")) [] (by decide) (by decide)⟩

end OutlineSS
